import Mathlib

/-!
# Verification of the Diff & Review-Context Engine

A shallow embedding of `src/services/contextGenerator.ts` of the
`local-differ` repository, together with proofs and refutations of the
frozen specification claims about it.

Modelling conventions:
* JavaScript strings are Lean `String`s; all character-level operations
  (`split`, `trim`, `padStart`, …) are re-implemented structurally over
  `List Char` so that every definition evaluates by kernel reduction.
* JavaScript numbers are `Nat` where the source only ever holds
  non-negative integers, `Int` where `-1` sentinels occur, and `ℚ` for
  the percentage / ratio arithmetic of the rewrite classifier (the
  source values are IEEE doubles; at every point used by a claim the
  computations are exact, so the rational model is faithful).
* `Array.prototype.sort` (in-place, stable since ES2019) is modelled by
  a stable sort plus explicit state passing for the in-place effect.
-/

namespace LocalDiffer

/-! ## Character-level string utilities (JS semantics) -/

/-- The whitespace characters recognised by JavaScript `trim` / `\s`
(ASCII portion, which is all the repository ever feeds in). -/
def isJsSpace (c : Char) : Bool :=
  c = ' ' || c = '\t' || c = '\n' || c = '\r' || c = '\x0b' || c = '\x0c'

/-- JS `\w` character class: `[A-Za-z0-9_]`. -/
def isWordChar (c : Char) : Bool :=
  c.isAlphanum || c = '_'

/-- `String.prototype.split(sep)` for a single-character separator, on the
character list: `"" ↦ [""]`, `"a\nb" ↦ ["a","b"]`, `"a\n" ↦ ["a",""]`. -/
def splitChars (sep : Char) : List Char → List (List Char)
  | [] => [[]]
  | c :: cs =>
    if c = sep then [] :: splitChars sep cs
    else
      match splitChars sep cs with
      | [] => [[c]]
      | l :: ls => (c :: l) :: ls

/-- JS `content.split(sep)` for a one-character separator. -/
def jsSplit (sep : Char) (s : String) : List String :=
  (splitChars sep s.data).map (fun l => String.mk l)

/-- JS `Array.prototype.join(sep)` / template-literal concatenation. -/
def joinWith (sep : String) : List String → String
  | [] => ""
  | [s] => s
  | s :: rest => s ++ sep ++ joinWith sep rest

/-- JS `String.prototype.trim()`. -/
def jsTrim (s : String) : List Char :=
  ((s.data.dropWhile isJsSpace).reverse.dropWhile isJsSpace).reverse

/-- JS `String(n)` for a non-negative integer. -/
def natStr (n : Nat) : String := Nat.repr n

/-- JS `String(n).padStart(width)` (pads with spaces on the left). -/
def padStart (w : Nat) (s : String) : String :=
  String.mk (List.replicate (w - s.data.length) ' ') ++ s

/-! ## The edit-script data model (`DiffChange`) -/

/-- The tag of one edit operation (`'equal' | 'insert' | 'delete'`). -/
inductive CType where
  | equal
  | insert
  | delete
deriving DecidableEq, Repr

/-- One element of the edit script produced by `computeDiff`
(`interface DiffChange`). `oldIdx`/`newIdx` are `Int` because the source
stores `-1` sentinels. -/
structure DiffChange where
  type : CType
  oldIdx : Int
  newIdx : Int
  line : String
deriving DecidableEq, Repr

/-! ## The LCS dynamic-programming table

The source fills a `(m+1) × (n+1)` table top-down:
`dp[i][j] = dp[i-1][j-1] + 1` when `old[i-1] == new[j-1]`, otherwise
`max dp[i-1][j] dp[i][j-1]`.  We build the same table row by row. -/

/-- Builds the tail of row `i` (columns `1..n`) from the previous row.
`pdiag :: prest` is the previous row starting at column `j-1`; `left` is
the value already computed at `(i, j-1)`. -/
def dpRowAux (oldLine : String) : List Nat → List String → Nat → List Nat
  | pdiag :: pup :: prest, nl :: nls, left =>
    let v := if oldLine = nl then pdiag + 1 else max pup left
    v :: dpRowAux oldLine (pup :: prest) nls v
  | _, _, _ => []

/-- Row `i` of the table (column 0 is always 0). -/
def dpRow (oldLine : String) (prev : List Nat) (newLines : List String) : List Nat :=
  0 :: dpRowAux oldLine prev newLines 0

/-- Rows `1..m` of the table, in order. -/
def dpRowsFrom (newLines : List String) : List Nat → List String → List (List Nat)
  | _, [] => []
  | prev, o :: os =>
    let r := dpRow o prev newLines
    r :: dpRowsFrom newLines r os

/-- The full DP table (`m+1` rows). -/
def dpTable (oldLines newLines : List String) : List (List Nat) :=
  let row0 := List.replicate (newLines.length + 1) 0
  row0 :: dpRowsFrom newLines row0 oldLines

/-- `dp[i][j]` lookup. -/
def get2 (t : List (List Nat)) (i j : Nat) : Nat :=
  (t.getD i []).getD j 0

/-! ## `computeDiff`: backtracking over the table

The source loops `while (i > 0 || j > 0)` and `unshift`s each produced
op, so the accumulator below is exactly the `changes` array; the loop
decrements `i + j` each iteration, which `fuel` makes explicit. -/

def backtrackAux (oldLines newLines : List String) (t : List (List Nat)) :
    Nat → Nat → Nat → List DiffChange → List DiffChange
  | 0, _, _, acc => acc
  | fuel + 1, i, j, acc =>
    if i = 0 ∧ j = 0 then acc
    else if 0 < i ∧ 0 < j ∧ oldLines.getD (i - 1) "" = newLines.getD (j - 1) "" then
      backtrackAux oldLines newLines t fuel (i - 1) (j - 1)
        ({ type := .equal, oldIdx := (i : Int) - 1, newIdx := (j : Int) - 1,
           line := oldLines.getD (i - 1) "" } :: acc)
    else if 0 < j ∧ (i = 0 ∨ get2 t i (j - 1) ≥ get2 t (i - 1) j) then
      backtrackAux oldLines newLines t fuel i (j - 1)
        ({ type := .insert, oldIdx := (i : Int) - 1, newIdx := (j : Int) - 1,
           line := newLines.getD (j - 1) "" } :: acc)
    else
      backtrackAux oldLines newLines t fuel (i - 1) j
        ({ type := .delete, oldIdx := (i : Int) - 1, newIdx := -1,
           line := oldLines.getD (i - 1) "" } :: acc)

/-- `computeDiff(oldLines, newLines)`: LCS-based diff (lines 174–208 of
the source). -/
def computeDiff (oldLines newLines : List String) : List DiffChange :=
  backtrackAux oldLines newLines (dpTable oldLines newLines)
    (oldLines.length + newLines.length) oldLines.length newLines.length []

/-! ## The hunk data model -/

/-- One rendered diff line (`interface DiffLine`); the optional line
numbers mirror the source's optional fields. -/
structure DiffLine where
  type : String
  content : String
  oldLineNum : Option Nat
  newLineNum : Option Nat
deriving DecidableEq, Repr

/-- `interface DiffHunk`. -/
structure DiffHunk where
  oldStart : Nat
  oldCount : Nat
  newStart : Nat
  newCount : Nat
  lines : List DiffLine
deriving DecidableEq, Repr

/-! ## `createHunks` (lines 213–282 of the source) -/

/-- The indices of the non-`equal` ops (`changeIndices`). -/
def changeIndicesOf (changes : List DiffChange) : List Nat :=
  changes.enum.filterMap (fun p => if p.2.type = CType.equal then none else some p.1)

/-- The interval-merging loop (lines 228–240).  The pending window is
`(s, e)`; `Nat` subtraction models `Math.max(0, c - contextLines)`. -/
def mergeRanges (contextLines n : Nat) : List Nat → Nat × Nat → List (Nat × Nat)
  | [], r => [r]
  | c :: cs, (s, e) =>
    let ns := c - contextLines
    let ne := min (n - 1) (c + contextLines)
    if ns ≤ e + 1 then mergeRanges contextLines n cs (s, ne)
    else (s, e) :: mergeRanges contextLines n cs (ns, ne)

/-- The per-op walk of lines 260–276, carrying the running old/new line
counters. -/
def hunkLines : List DiffChange → Nat → Nat → List DiffLine
  | [], _, _ => []
  | c :: cs, o, nn =>
    match c.type with
    | .equal =>
      { type := "context", content := c.line, oldLineNum := some o, newLineNum := some nn } ::
        hunkLines cs (o + 1) (nn + 1)
    | .delete =>
      { type := "remove", content := c.line, oldLineNum := some o, newLineNum := none } ::
        hunkLines cs (o + 1) nn
    | .insert =>
      { type := "add", content := c.line, oldLineNum := none, newLineNum := some nn } ::
        hunkLines cs o (nn + 1)

/-- An op advances the old-line counter iff it is not an insert. -/
def advancesOld (c : DiffChange) : Bool := !(c.type == CType.insert)

/-- An op advances the new-line counter iff it is not a delete. -/
def advancesNew (c : DiffChange) : Bool := !(c.type == CType.delete)

/-- Emits the hunk for one merged range `[s, e]` (lines 242–278).  The
source walks `changes[0..s)` incrementing the counters — that walk
computes exactly `1 +` the number of counter-advancing ops in the
prefix, and the per-slice counts are the counter-advancing ops of the
slice. -/
def emitHunk (changes : List DiffChange) (r : Nat × Nat) : DiffHunk :=
  let slice := (changes.drop r.1).take (r.2 + 1 - r.1)
  let oldStart := 1 + (changes.take r.1).countP advancesOld
  let newStart := 1 + (changes.take r.1).countP advancesNew
  { oldStart := oldStart
    oldCount := slice.countP advancesOld
    newStart := newStart
    newCount := slice.countP advancesNew
    lines := hunkLines slice oldStart newStart }

/-- The merged windows of the change indices (empty when there is no
non-`equal` op). -/
def hunkRangesOf (changes : List DiffChange) (contextLines : Nat) : List (Nat × Nat) :=
  match changeIndicesOf changes with
  | [] => []
  | c :: cs =>
    mergeRanges contextLines changes.length cs
      (c - contextLines, min (changes.length - 1) (c + contextLines))

/-- `createHunks(changes, oldLines, newLines, contextLines)`.  The
`oldLines`/`newLines` parameters are unused, exactly as in the source. -/
def createHunks (changes : List DiffChange) (_oldLines _newLines : List String)
    (contextLines : Nat) : List DiffHunk :=
  (hunkRangesOf changes contextLines).map (emitHunk changes)

/-- `generateUnifiedDiff(oldContent, newContent, contextLines = 3)`
(lines 157–162): note that here the contents are split *unguarded*
(`"" ↦ [""]`). -/
def generateUnifiedDiff (oldContent newContent : String) (contextLines : Nat) : List DiffHunk :=
  let oldLines := jsSplit '\n' oldContent
  let newLines := jsSplit '\n' newContent
  let changes := computeDiff oldLines newLines
  createHunks changes oldLines newLines contextLines

/-! ## `calculateDiffStats` (lines 50–78) -/

/-- `interface DiffStats`; the two percentage-like fields are exact
rationals in the model. -/
structure DiffStats where
  oldLines : Nat
  newLines : Nat
  addedLines : Nat
  removedLines : Nat
  changedPercent : ℚ
  isMajorRewrite : Bool
deriving DecidableEq, Repr

/-- The guarded split of lines 51–56: a falsy (empty) content yields
`[]`, not `[""]`. -/
def guardedLines (content : String) : List String :=
  if content = "" then [] else jsSplit '\n' content

/-- The `sizeRatio` local of line 74 (`newLines / oldLines`, or
`newLines` when the old file is absent). -/
def sizeRatioOf (oldContent newContent : String) : ℚ :=
  let oldLines := (guardedLines oldContent).length
  let newLines := (guardedLines newContent).length
  if 0 < oldLines then (newLines : ℚ) / (oldLines : ℚ) else (newLines : ℚ)

/-- `calculateDiffStats(oldContent, newContent)`. -/
def calculateDiffStats (oldContent newContent : String) : DiffStats :=
  let oldLines := (guardedLines oldContent).length
  let newLines := (guardedLines newContent).length
  let changes := computeDiff (guardedLines oldContent) (guardedLines newContent)
  let addedLines := changes.countP (fun c => c.type == CType.insert)
  let removedLines := changes.countP (fun c => c.type == CType.delete)
  let totalChanged := addedLines + removedLines
  let maxLines := max (max oldLines newLines) 1
  let changedPercent : ℚ := ((totalChanged : ℚ) / (maxLines : ℚ)) * 100
  let sizeRatio := sizeRatioOf oldContent newContent
  { oldLines := oldLines
    newLines := newLines
    addedLines := addedLines
    removedLines := removedLines
    changedPercent := changedPercent
    isMajorRewrite :=
      decide (changedPercent > 60) || decide (sizeRatio > 3) ||
        decide (sizeRatio < 33 / 100) }

/-! ## `extractStructuralElements` (lines 83–127)

Each source pattern is an anchored regex of the very restricted shape
"optional keyword groups, literals, `\s+`/`\s*`, one `(\w+)` capture".
For these shapes a greedy matcher with a one-level fallback for each
optional group is exactly the regex semantics, because every repetition
(`\s+`, `\w+`, `[^)]+`, `[^>]+`) is delimited by a character disjoint
from its own class. -/

/-- Matches a literal prefix. -/
def dropLit : List Char → List Char → Option (List Char)
  | [], cs => some cs
  | p :: ps, c :: cs => if c = p then dropLit ps cs else none
  | _ :: _, [] => none

/-- `\s+` (greedy). -/
def spaces1 : List Char → Option (List Char)
  | c :: rest => if isJsSpace c then some (rest.dropWhile isJsSpace) else none
  | [] => none

/-- `\s*`. -/
def spaces0 (cs : List Char) : List Char := cs.dropWhile isJsSpace

/-- `(\w+)` (greedy, at least one char): the captured name plus rest. -/
def capWord (cs : List Char) : Option (String × List Char) :=
  let w := cs.takeWhile isWordChar
  if w.isEmpty then none else some (String.mk w, cs.dropWhile isWordChar)

/-- A literal keyword followed by `\s+`. -/
def litSp (lit : String) (cs : List Char) : Option (List Char) :=
  (dropLit lit.data cs).bind spaces1

/-- `(?:g)?k`: try the optional group, fall back to skipping it —
the regex backtracking for one optional group. -/
def optGroup (g : List Char → Option (List Char))
    (k : List Char → Option String) (cs : List Char) : Option String :=
  match g cs with
  | some rest =>
    match k rest with
    | some r => some r
    | none => k cs
  | none => k cs

/-- Capture `(\w+)` and stop (the regexes are unanchored at the end). -/
def capOnly (cs : List Char) : Option String :=
  (capWord cs).map Prod.fst

/-- `/^(?:export\s+)?(?:async\s+)?function\s+(\w+)/` -/
def patTsFunction (cs : List Char) : Option String :=
  optGroup (litSp "export")
    (optGroup (litSp "async")
      (fun s => (litSp "function" s).bind capOnly)) cs

/-- `/^(?:export\s+)?const\s+(\w+)\s*=\s*(?:async\s+)?\(/` -/
def patTsConstArrow (cs : List Char) : Option String :=
  optGroup (litSp "export")
    (fun s =>
      match litSp "const" s with
      | none => none
      | some s1 =>
        match capWord s1 with
        | none => none
        | some (w, s2) =>
          match spaces0 s2 with
          | '=' :: s3 =>
            optGroup (litSp "async")
              (fun s4 =>
                match s4 with
                | '(' :: _ => some w
                | _ => none) (spaces0 s3)
          | _ => none) cs

/-- `/^(?:export\s+)?const\s+(\w+)\s*=\s*(?:async\s+)?function/` -/
def patTsConstFunction (cs : List Char) : Option String :=
  optGroup (litSp "export")
    (fun s =>
      match litSp "const" s with
      | none => none
      | some s1 =>
        match capWord s1 with
        | none => none
        | some (w, s2) =>
          match spaces0 s2 with
          | '=' :: s3 =>
            optGroup (litSp "async")
              (fun s4 => (dropLit "function".data s4).map (fun _ => w)) (spaces0 s3)
          | _ => none) cs

/-- `/^(?:export\s+)?class\s+(\w+)/` -/
def patTsClass (cs : List Char) : Option String :=
  optGroup (litSp "export") (fun s => (litSp "class" s).bind capOnly) cs

/-- `/^(?:export\s+)?interface\s+(\w+)/` -/
def patTsInterface (cs : List Char) : Option String :=
  optGroup (litSp "export") (fun s => (litSp "interface" s).bind capOnly) cs

/-- `/^(?:export\s+)?type\s+(\w+)\s*=/` -/
def patTsType (cs : List Char) : Option String :=
  optGroup (litSp "export")
    (fun s =>
      match litSp "type" s with
      | none => none
      | some s1 =>
        match capWord s1 with
        | none => none
        | some (w, s2) =>
          match spaces0 s2 with
          | '=' :: _ => some w
          | _ => none) cs

/-- `/^(?:export\s+)?enum\s+(\w+)/` -/
def patTsEnum (cs : List Char) : Option String :=
  optGroup (litSp "export") (fun s => (litSp "enum" s).bind capOnly) cs

/-- `/^(?:pub\s+)?fn\s+(\w+)/` -/
def patRustFn (cs : List Char) : Option String :=
  optGroup (litSp "pub") (fun s => (litSp "fn" s).bind capOnly) cs

/-- `/^(?:pub\s+)?struct\s+(\w+)/` -/
def patRustStruct (cs : List Char) : Option String :=
  optGroup (litSp "pub") (fun s => (litSp "struct" s).bind capOnly) cs

/-- `/^(?:pub\s+)?enum\s+(\w+)/` -/
def patRustEnum (cs : List Char) : Option String :=
  optGroup (litSp "pub") (fun s => (litSp "enum" s).bind capOnly) cs

/-- `/^(?:pub\s+)?trait\s+(\w+)/` -/
def patRustTrait (cs : List Char) : Option String :=
  optGroup (litSp "pub") (fun s => (litSp "trait" s).bind capOnly) cs

/-- `(?:<[^>]+>)?` -/
def angleGroup (cs : List Char) : Option (List Char) :=
  match cs with
  | '<' :: r =>
    if (r.takeWhile (fun c => !(c = '>'))).isEmpty then none
    else
      match r.dropWhile (fun c => !(c = '>')) with
      | '>' :: rest => some rest
      | _ => none
  | _ => none

/-- `/^impl(?:<[^>]+>)?\s+(\w+)/` -/
def patRustImpl (cs : List Char) : Option String :=
  match dropLit "impl".data cs with
  | none => none
  | some s =>
    optGroup angleGroup (fun s1 => (spaces1 s1).bind capOnly) s

/-- `/^(?:async\s+)?def\s+(\w+)/` -/
def patPyDef (cs : List Char) : Option String :=
  optGroup (litSp "async") (fun s => (litSp "def" s).bind capOnly) cs

/-- `/^class\s+(\w+)/` -/
def patPyClass (cs : List Char) : Option String :=
  (litSp "class" cs).bind capOnly

/-- `(?:\([^)]+\)\s+)?` -/
def parenGroup (cs : List Char) : Option (List Char) :=
  match cs with
  | '(' :: r =>
    if (r.takeWhile (fun c => !(c = ')'))).isEmpty then none
    else
      match r.dropWhile (fun c => !(c = ')')) with
      | ')' :: rest => spaces1 rest
      | _ => none
  | _ => none

/-- `/^func\s+(?:\([^)]+\)\s+)?(\w+)/` -/
def patGoFunc (cs : List Char) : Option String :=
  match litSp "func" cs with
  | none => none
  | some s => optGroup parenGroup capOnly s

/-- `/^type\s+(\w+)\s+struct/` -/
def patGoStruct (cs : List Char) : Option String :=
  match litSp "type" cs with
  | none => none
  | some s =>
    match capWord s with
    | none => none
    | some (w, s1) => (spaces1 s1).bind (fun s2 => (dropLit "struct".data s2).map (fun _ => w))

/-- `/^type\s+(\w+)\s+interface/` -/
def patGoInterface (cs : List Char) : Option String :=
  match litSp "type" cs with
  | none => none
  | some s =>
    match capWord s with
    | none => none
    | some (w, s1) => (spaces1 s1).bind (fun s2 => (dropLit "interface".data s2).map (fun _ => w))

/-- The ordered pattern table of lines 91–113, with each pattern's
`type` string. -/
def patternTable : List ((List Char → Option String) × String) :=
  [(patTsFunction, "function"),
   (patTsConstArrow, "function"),
   (patTsConstFunction, "function"),
   (patTsClass, "class"),
   (patTsInterface, "interface"),
   (patTsType, "type"),
   (patTsEnum, "enum"),
   (patRustFn, "function"),
   (patRustStruct, "struct"),
   (patRustEnum, "enum"),
   (patRustTrait, "trait"),
   (patRustImpl, "impl"),
   (patPyDef, "function"),
   (patPyClass, "class"),
   (patGoFunc, "function"),
   (patGoStruct, "struct"),
   (patGoInterface, "interface")]

/-- First pattern that matches the trimmed line wins (the `break` of
line 121). -/
def matchLine (line : String) : Option (String × String) :=
  let trimmed := jsTrim line
  patternTable.foldr
    (fun pat acc =>
      match pat.1 trimmed with
      | some name => some (name, pat.2)
      | none => acc)
    none

/-- JS `Map.prototype.set`: updates in place when the key exists
(keeping its insertion position), appends otherwise. -/
def mapSet (m : List (String × String)) (k v : String) : List (String × String) :=
  if m.any (fun p => p.1 == k) then
    m.map (fun p => if p.1 == k then (k, v) else p)
  else m ++ [(k, v)]

/-- JS `Map.prototype.has`. -/
def mapHas (m : List (String × String)) (k : String) : Bool :=
  m.any (fun p => p.1 == k)

/-- `extractStructuralElements(content, language)`.  Note that, as in
the source, the `language` parameter is never consulted. -/
def extractStructuralElements (content : String) (language : String) :
    List (String × String) :=
  if content = "" then []
  else
    (jsSplit '\n' content).foldl
      (fun m line =>
        match matchLine line with
        | some (name, ty) => mapSet m name ty
        | none => m)
      []

/-- `interface StructuralChange`. -/
structure StructuralChange where
  type : String
  name : String
  action : String
deriving DecidableEq, Repr

/-- `getStructuralChanges(oldContent, newContent, language)`
(lines 132–152). -/
def getStructuralChanges (oldContent newContent language : String) :
    List StructuralChange :=
  let oldElements := extractStructuralElements oldContent language
  let newElements := extractStructuralElements newContent language
  let removed := oldElements.filterMap
    (fun p =>
      if mapHas newElements p.1 then none
      else some { type := p.2, name := p.1, action := "removed" })
  let added := newElements.filterMap
    (fun p =>
      if mapHas oldElements p.1 then none
      else some { type := p.2, name := p.1, action := "added" })
  removed ++ added

/-! ## Input data model of `generateContextMarkdown` (`src/types/diff.ts`) -/

/-- `interface LineComment`; `side` is the string union `'old' | 'new'`. -/
structure LineComment where
  id : String
  startLine : Nat
  endLine : Nat
  lineContent : String
  lineContents : Option (List String)
  side : String
  text : String
  createdAt : Nat
  updatedAt : Nat
deriving DecidableEq, Repr

/-- `interface FileComment`. -/
structure FileComment where
  filePath : String
  staged : Bool
  generalComment : String
  lineComments : List LineComment
deriving DecidableEq, Repr

/-- `interface FileContextData`. -/
structure FileContextData where
  oldContent : String
  newContent : String
  language : String
  status : String
deriving DecidableEq, Repr

/-- `interface ContextOptions`. -/
structure ContextOptions where
  reviewFocus : Option String
  includeUncommentedFiles : Option Bool
deriving DecidableEq, Repr

/-! ## Small renderer helpers -/

/-- `getStatusLabel` (lines 33–45). -/
def getStatusLabel (status : String) : String :=
  if status = "A" then "Added"
  else if status = "D" then "Deleted"
  else if status = "M" then "Modified"
  else if status = "R" then "Renamed"
  else if status = "C" then "Copied"
  else if status = "U" then "Unmerged"
  else if status = "T" then "Type changed"
  else status

/-- `formatHunk` (lines 287–302). -/
def formatHunk (hunk : DiffHunk) : List String :=
  ("@@ -" ++ natStr hunk.oldStart ++ "," ++ natStr hunk.oldCount ++
      " +" ++ natStr hunk.newStart ++ "," ++ natStr hunk.newCount ++ " @@") ::
    hunk.lines.map (fun line =>
      if line.type == "add" then
        padStart 4 (natStr (line.newLineNum.getD 0)) ++ " + " ++ line.content
      else if line.type == "remove" then
        "     - " ++ line.content
      else
        padStart 4 (natStr (line.newLineNum.getD 0)) ++ "   " ++ line.content)

/-- `getContextAroundLine(content, lineNum, contextSize = 2)`
(lines 307–319). -/
def getContextAroundLine (content : String) (lineNum : Nat) (contextSize : Nat) :
    List String :=
  let lines := jsSplit '\n' content
  let start := lineNum - 1 - contextSize
  let stop := min lines.length (lineNum + contextSize)
  (List.range (stop - start)).map (fun k =>
    let i := start + k
    let num := i + 1
    let marker := if num = lineNum then ">" else " "
    marker ++ " " ++ padStart 4 (natStr num) ++ " | " ++ lines.getD i "")

/-- `formatStructuralChanges` (lines 324–341). -/
def formatStructuralChanges (changes : List StructuralChange) : List String :=
  if changes.isEmpty then []
  else
    let added := changes.filter (fun c => c.action == "added")
    let removed := changes.filter (fun c => c.action == "removed")
    ["### Structural Changes", ""] ++
      (if !removed.isEmpty then
        ["**Removed:** " ++
          joinWith ", " (removed.map (fun c => "`" ++ c.name ++ "` (" ++ c.type ++ ")"))]
      else []) ++
      (if !added.isEmpty then
        ["**Added:** " ++
          joinWith ", " (added.map (fun c => "`" ++ c.name ++ "` (" ++ c.type ++ ")"))]
      else []) ++
      [""]

/-- The stable in-place `sort((a, b) => a.startLine - b.startLine)` of
the source, as a pure stable sort. -/
def sortByStart (l : List LineComment) : List LineComment :=
  l.insertionSort (fun a b => a.startLine ≤ b.startLine)

/-- `Line N` / `Lines N-M` labels (used in all three comment blocks). -/
def lineLabelOf (lc : LineComment) : String :=
  if lc.startLine = lc.endLine then "Line " ++ natStr lc.startLine
  else "Lines " ++ natStr lc.startLine ++ "-" ++ natStr lc.endLine

/-- The range test of lines 511–517 (and, identically, of the
`allHunkRanges.some` test of lines 530–544): does the comment's
start line fall inside this hunk's side-appropriate range? -/
def inHunkRange (h : DiffHunk) (lc : LineComment) : Bool :=
  if lc.side == "new" then
    decide (h.newStart ≤ lc.startLine) && decide (lc.startLine ≤ h.newStart + h.newCount - 1)
  else
    decide (h.oldStart ≤ lc.startLine) && decide (lc.startLine ≤ h.oldStart + h.oldCount - 1)

/-- `hunkComments` for one hunk (filter then sort, lines 511–517). -/
def hunkCommentsOf (h : DiffHunk) (lineComments : List LineComment) : List LineComment :=
  sortByStart (lineComments.filter (inHunkRange h))

/-- `uncoveredComments` (lines 537–544): comments matching no hunk. -/
def uncoveredOf (hunks : List DiffHunk) (lineComments : List LineComment) :
    List LineComment :=
  lineComments.filter (fun lc => !(hunks.any (fun h => inHunkRange h lc)))

/-! ## `generateContextMarkdown` (lines 343–587)

The in-place `lineComments.sort(...)` of the major-rewrite path
(line 474) and of the no-file-data path (line 568) mutates the caller's
array, so each per-file section returns the post-call `FileComment`
alongside its rendered lines (explicit state passing). -/

/-- The `${comment.filePath}:${comment.staged}` key (line 353). -/
def fileKey (c : FileComment) : String :=
  c.filePath ++ ":" ++ (if c.staged then "true" else "false")

/-- Numbered content listing (lines 453–455 / 462–464 / 494–497). -/
def numberedLines (contentLines : List String) : List String :=
  contentLines.enum.map (fun p => padStart 4 (natStr (p.1 + 1)) ++ " | " ++ p.2)

/-- The per-file section of the loop at lines 400–584, returning the
rendered lines and the (possibly sorted-in-place) comment record. -/
def renderFileSection (c : FileComment) (data : Option FileContextData) (key : String) :
    List String × FileComment :=
  let parts := jsSplit ':' key
  let filePath := parts.getD 0 ""
  let stagedStr := parts.getD 1 ""
  let staged := stagedStr == "true"
  let status :=
    match data with
    | some d => if d.status ≠ "" then getStatusLabel d.status else ""
    | none => ""
  let statusStr := if status ≠ "" then " (" ++ status ++ ")" else ""
  let stageStr := if staged then "Staged" else "Unstaged"
  let language :=
    match data with
    | some d => if d.language ≠ "" then d.language else "text"
    | none => "text"
  let stats := data.map (fun d => calculateDiffStats d.oldContent d.newContent)
  let header :=
    "## " ++ filePath ++ statusStr ++
      (match stats with
       | some st => if st.isMajorRewrite then " - **Major Rewrite**" else ""
       | none => "")
  let metaLine :=
    "**Stage:** " ++ stageStr ++ " | **Language:** " ++ language ++
      (match stats with
       | some st =>
         " | **Lines:** " ++ natStr st.oldLines ++ " â†’ " ++ natStr st.newLines ++
           (if 0 < st.addedLines then " (+" ++ natStr st.addedLines ++ ")" else "") ++
           (if 0 < st.removedLines then " (-" ++ natStr st.removedLines ++ ")" else "")
       | none => "")
  let notes :=
    if c.generalComment ≠ "" then ["### Notes", c.generalComment, ""] else []
  let bodyAndState : List String × FileComment :=
    match data with
    | some d =>
      if d.oldContent ≠ "" ∨ d.newContent ≠ "" then
        let lineComments := c.lineComments
        if (calculateDiffStats d.oldContent d.newContent).isMajorRewrite then
          let structuralChanges := getStructuralChanges d.oldContent d.newContent language
          let structural :=
            if !structuralChanges.isEmpty then formatStructuralChanges structuralChanges
            else []
          let newLines := jsSplit '\n' d.newContent
          let contentBlock :=
            if newLines.length ≤ 100 then
              ["### New Content", "```" ++ language] ++ numberedLines newLines ++ ["```", ""]
            else
              ["### Content Preview",
               "*File has " ++ natStr newLines.length ++ " lines. Showing first 50 lines:*",
               "```" ++ language] ++ numberedLines (newLines.take 50) ++
                ["```", "*... " ++ natStr (newLines.length - 50) ++ " more lines*", ""]
          let commentBlock :=
            if !lineComments.isEmpty then
              ["### Comments", ""] ++
                ((sortByStart lineComments).map (fun lc =>
                  ["**" ++ lineLabelOf lc ++ ":** " ++ lc.text, "```"] ++
                    getContextAroundLine
                      (if lc.side == "new" then d.newContent else d.oldContent)
                      lc.startLine 2 ++
                    ["```", ""])).flatten
            else []
          let c' :=
            if !lineComments.isEmpty then { c with lineComments := sortByStart c.lineComments }
            else c
          (structural ++ contentBlock ++ commentBlock, c')
        else
          let hunks := generateUnifiedDiff d.oldContent d.newContent 3
          if hunks.isEmpty ∧ d.newContent ≠ "" ∧ d.oldContent = "" then
            (["### New File", "```" ++ language] ++
              numberedLines (jsSplit '\n' d.newContent) ++ ["```", ""], c)
          else if !hunks.isEmpty then
            let hunkBlocks :=
              (hunks.map (fun h =>
                ["```diff"] ++ formatHunk h ++ ["```"] ++
                  ((hunkCommentsOf h lineComments).map (fun lc =>
                    ["> **" ++ lineLabelOf lc ++
                        (if lc.side == "new" then "" else " (removed)") ++
                        ":** " ++ lc.text, ""])).flatten)).flatten
            let unc := uncoveredOf hunks lineComments
            let uncBlock :=
              if !unc.isEmpty then
                ["### Other Comments", ""] ++
                  ((sortByStart unc).map (fun lc =>
                    let contextContent :=
                      if lc.side == "new" then d.newContent else d.oldContent
                    ["**" ++ lineLabelOf lc ++ ":** " ++ lc.text] ++
                      (if contextContent ≠ "" then
                        ["```"] ++ getContextAroundLine contextContent lc.startLine 2 ++
                          ["```"]
                      else []) ++
                      [""])).flatten
              else []
            (["### Changes", ""] ++ hunkBlocks ++ uncBlock, c)
          else ([], c)
      else if !c.lineComments.isEmpty then
        (["### Comments"] ++
          ((sortByStart c.lineComments).map (fun lc =>
            ["**" ++ lineLabelOf lc ++ ":** " ++ lc.text] ++
              (match lc.lineContents with
               | some lcs => if !lcs.isEmpty then ["```", joinWith "\n" lcs, "```"] else []
               | none => []) ++
              [""])).flatten,
          { c with lineComments := sortByStart c.lineComments })
      else ([], c)
    | none =>
      if !c.lineComments.isEmpty then
        (["### Comments"] ++
          ((sortByStart c.lineComments).map (fun lc =>
            ["**" ++ lineLabelOf lc ++ ":** " ++ lc.text] ++
              (match lc.lineContents with
               | some lcs => if !lcs.isEmpty then ["```", joinWith "\n" lcs, "```"] else []
               | none => []) ++
              [""])).flatten,
          { c with lineComments := sortByStart c.lineComments })
      else ([], c)
  (header :: metaLine :: "" :: notes ++ bodyAndState.1 ++ ["---", ""], bodyAndState.2)

/-- The summary-table row of lines 375–386. -/
def summaryRow (c : FileComment) (data : Option FileContextData) (key : String) : String :=
  let parts := jsSplit ':' key
  let filePath := parts.getD 0 ""
  let stagedStr := parts.getD 1 ""
  let staged := stagedStr == "true"
  let status :=
    match data with
    | some d => if d.status ≠ "" then getStatusLabel d.status else "Unknown"
    | none => "Unknown"
  let stage := if staged then "Staged" else "Unstaged"
  let commentCount := c.lineComments.length
  let generalNote := if c.generalComment ≠ "" then 1 else 0
  let totalComments := commentCount + generalNote
  let language :=
    match data with
    | some d => if d.language ≠ "" then d.language else "text"
    | none => "text"
  "| `" ++ filePath ++ "` | " ++ status ++ " | " ++ stage ++ " | " ++
    natStr totalComments ++ " | " ++ language ++ " |"

/-- JS `Map.prototype.get(key) || null` over the file-data map. -/
def lookupData (fileDataMap : List (String × FileContextData)) (key : String) :
    Option FileContextData :=
  (fileDataMap.find? (fun p => p.1 == key)).map Prod.snd

/-- The fixed instructions paragraph of line 365. -/
def instructionsLine : String :=
  "> **Instructions:** Please review the code changes and comments below. Your goal is to **fix the issues described** in the comments. Enter **plan mode** first to analyze the changes and create an implementation plan before making any modifications."

/-- `generateContextMarkdown(comments, fileDataMap, options)`, with the
post-call state of the `comments` array as second component. -/
def generateContextMarkdownSt (comments : List FileComment)
    (fileDataMap : List (String × FileContextData)) (options : ContextOptions) :
    String × List FileComment :=
  let allFiles := comments.map (fun c => (c, lookupData fileDataMap (fileKey c), fileKey c))
  if comments.isEmpty then
    ("# Code Review Context\n\nNo files to review.", comments)
  else
    let baseLines := ["# Code Review Context", "", instructionsLine, ""]
    let summary :=
      ["## Summary", "", "| File | Status | Stage | Comments | Language |",
       "|------|--------|-------|----------|----------|"] ++
        allFiles.map (fun f => summaryRow f.1 f.2.1 f.2.2) ++ [""]
    let focus :=
      match options.reviewFocus with
      | some s => if s ≠ "" then ["## Review Focus", "", s, ""] else []
      | none => []
    let sections := allFiles.map (fun f => renderFileSection f.1 f.2.1 f.2.2)
    (joinWith "\n"
      (baseLines ++ summary ++ focus ++ ["---", ""] ++ (sections.map Prod.fst).flatten),
     sections.map Prod.snd)

/-- The rendered markdown (the source's return value). -/
def generateContextMarkdown (comments : List FileComment)
    (fileDataMap : List (String × FileContextData)) (options : ContextOptions) : String :=
  (generateContextMarkdownSt comments fileDataMap options).1

/-! ## Round-trip properties of `computeDiff` -/

/-- Replaying the `Equal`/`Delete` ops of an edit script, in order. -/
def oldReplay (changes : List DiffChange) : List String :=
  (changes.filter advancesOld).map DiffChange.line

/-- Replaying the `Equal`/`Insert` ops of an edit script, in order. -/
def newReplay (changes : List DiffChange) : List String :=
  (changes.filter advancesNew).map DiffChange.line

lemma take_eq_take_append_getD {α : Type} (l : List α) (d : α) (i : Nat)
    (h1 : 0 < i) (h2 : i ≤ l.length) :
    l.take i = l.take (i - 1) ++ [l.getD (i - 1) d] := by
  obtain ⟨k, rfl⟩ : ∃ k, i = k + 1 := ⟨i - 1, (Nat.succ_pred_eq_of_pos h1).symm⟩
  have hk : k < l.length := h2
  rw [List.take_succ]
  simp [List.getElem?_eq_getElem hk]

lemma backtrackAux_replay (oldL newL : List String) (t : List (List Nat)) :
    ∀ fuel i j acc, i ≤ oldL.length → j ≤ newL.length → i + j ≤ fuel →
      oldReplay (backtrackAux oldL newL t fuel i j acc) =
          oldL.take i ++ oldReplay acc ∧
        newReplay (backtrackAux oldL newL t fuel i j acc) =
          newL.take j ++ newReplay acc := by
  intro fuel
  induction fuel with
  | zero =>
    intro i j acc hi hj hf
    obtain ⟨rfl, rfl⟩ : i = 0 ∧ j = 0 := by omega
    simp [backtrackAux]
  | succ fuel ih =>
    intro i j acc hi hj hf
    rw [backtrackAux]
    by_cases h0 : i = 0 ∧ j = 0
    · obtain ⟨rfl, rfl⟩ := h0
      simp
    · rw [if_neg h0]
      by_cases heq : 0 < i ∧ 0 < j ∧ oldL.getD (i - 1) "" = newL.getD (j - 1) ""
      · rw [if_pos heq]
        obtain ⟨hip, hjp, hline⟩ := heq
        simp only [List.getD_eq_getElem?_getD] at hline
        obtain ⟨ho, hn⟩ := ih (i - 1) (j - 1) _ (by omega) (by omega) (by omega)
        constructor
        · rw [ho]
          rw [take_eq_take_append_getD oldL "" i hip hi]
          simp [oldReplay, advancesOld]
        · rw [hn]
          rw [take_eq_take_append_getD newL "" j hjp hj]
          simp [newReplay, advancesNew, hline]
      · rw [if_neg heq]
        by_cases hins : 0 < j ∧ (i = 0 ∨ get2 t i (j - 1) ≥ get2 t (i - 1) j)
        · rw [if_pos hins]
          obtain ⟨ho, hn⟩ := ih i (j - 1) _ hi (by omega) (by omega)
          refine ⟨?_, ?_⟩
          · rw [ho]
            simp [oldReplay, advancesOld]
          · rw [hn]
            rw [take_eq_take_append_getD newL "" j hins.1 hj]
            simp [newReplay, advancesNew]
        · rw [if_neg hins]
          have hip : 0 < i := by
            rcases Nat.eq_zero_or_pos i with hz | hp
            · exfalso
              apply hins
              refine ⟨?_, Or.inl hz⟩
              omega
            · exact hp
          obtain ⟨ho, hn⟩ := ih (i - 1) j _ (by omega) hj (by omega)
          refine ⟨?_, ?_⟩
          · rw [ho]
            rw [take_eq_take_append_getD oldL "" i hip hi]
            simp [oldReplay, advancesOld]
          · rw [hn]
            simp [newReplay, advancesNew]

/-- The core round-trip fact, phrased on `computeDiff` directly. -/
lemma computeDiff_replay (oldL newL : List String) :
    oldReplay (computeDiff oldL newL) = oldL ∧
      newReplay (computeDiff oldL newL) = newL := by
  have h := backtrackAux_replay oldL newL (dpTable oldL newL)
    (oldL.length + newL.length) oldL.length newL.length [] le_rfl le_rfl le_rfl
  simpa [computeDiff, oldReplay, newReplay] using h

/-! ## Unfolding equations for the classifier fields -/

lemma changedPercent_def (o n : String) :
    (calculateDiffStats o n).changedPercent =
      ((((computeDiff (guardedLines o) (guardedLines n)).countP
            (fun c => c.type == CType.insert) +
          (computeDiff (guardedLines o) (guardedLines n)).countP
            (fun c => c.type == CType.delete) : Nat) : ℚ) /
        ((max (max (guardedLines o).length (guardedLines n).length) 1 : Nat) : ℚ)) * 100 :=
  rfl

lemma isMajorRewrite_def (o n : String) :
    (calculateDiffStats o n).isMajorRewrite =
      (decide ((calculateDiffStats o n).changedPercent > 60) ||
        decide (sizeRatioOf o n > 3) || decide (sizeRatioOf o n < 33 / 100)) :=
  rfl

/-! ## The diff of a sequence against itself is all-`equal` -/

lemma backtrackAux_self_equal (l : List String) (t : List (List Nat)) :
    ∀ fuel i acc, (∀ c ∈ acc, c.type = CType.equal) →
      ∀ c ∈ backtrackAux l l t fuel i i acc, c.type = CType.equal := by
  intro fuel
  induction fuel with
  | zero =>
    intro i acc hacc
    simpa [backtrackAux] using hacc
  | succ fuel ih =>
    intro i acc hacc
    rw [backtrackAux]
    rcases Nat.eq_zero_or_pos i with rfl | hip
    · simpa using hacc
    · rw [if_neg (by omega), if_pos ⟨hip, hip, rfl⟩]
      apply ih
      intro c hc
      rw [List.mem_cons] at hc
      rcases hc with rfl | hc
      · simp
      · exact hacc c hc

lemma computeDiff_self_equal (l : List String) :
    ∀ c ∈ computeDiff l l, c.type = CType.equal := by
  intro c hc
  exact backtrackAux_self_equal l _ _ _ [] (by simp) c hc

/-- If the edit script has no `insert` and no `delete` op, the two
sequences were equal. -/
lemma replay_eq_of_no_changes (oldL newL : List String)
    (hins : (computeDiff oldL newL).countP (fun c => c.type == CType.insert) = 0)
    (hdel : (computeDiff oldL newL).countP (fun c => c.type == CType.delete) = 0) :
    oldL = newL := by
  have hall_ins := List.countP_eq_zero.mp hins
  have hall_del := List.countP_eq_zero.mp hdel
  have hfilterOld : (computeDiff oldL newL).filter advancesOld = computeDiff oldL newL := by
    apply List.filter_eq_self.mpr
    intro c hc
    have := hall_ins c hc
    simp only [advancesOld]
    simpa using this
  have hfilterNew : (computeDiff oldL newL).filter advancesNew = computeDiff oldL newL := by
    apply List.filter_eq_self.mpr
    intro c hc
    have := hall_del c hc
    simp only [advancesNew]
    simpa using this
  have h := computeDiff_replay oldL newL
  have hOld : (computeDiff oldL newL).map DiffChange.line = oldL := by
    simpa [oldReplay, hfilterOld] using h.1
  have hNew : (computeDiff oldL newL).map DiffChange.line = newL := by
    simpa [newReplay, hfilterNew] using h.2
  exact hOld.symm.trans hNew

/-- **C1.** For every pair of line sequences, the edit script of
`computeDiff` round-trips: the `Equal`/`Delete` lines in script order
are exactly the old sequence, and the `Equal`/`Insert` lines are
exactly the new sequence. -/
theorem computeDiff_roundTrip (oldL newL : List String) :
    oldReplay (computeDiff oldL newL) = oldL ∧
      newReplay (computeDiff oldL newL) = newL :=
  computeDiff_replay oldL newL

/-- **C4.** `calculateDiffStats` returns `changedPercent = 0` iff the
old and new line sequences are identical, and `isMajorRewrite` is true
whenever `changedPercent > 60`, regardless of the size ratio. -/
theorem calculateDiffStats_classifier (o n : String) :
    ((calculateDiffStats o n).changedPercent = 0 ↔ guardedLines o = guardedLines n) ∧
      ((calculateDiffStats o n).changedPercent > 60 →
        (calculateDiffStats o n).isMajorRewrite = true) := by
  constructor
  · rw [changedPercent_def]
    have hmax : ((max (max (guardedLines o).length (guardedLines n).length) 1 : Nat) : ℚ) ≠ 0 := by
      have : (1 : Nat) ≤ max (max (guardedLines o).length (guardedLines n).length) 1 :=
        le_max_right _ _
      positivity
    rw [mul_eq_zero, div_eq_zero_iff]
    constructor
    · intro h
      have hzero :
          (computeDiff (guardedLines o) (guardedLines n)).countP
              (fun c => c.type == CType.insert) +
            (computeDiff (guardedLines o) (guardedLines n)).countP
              (fun c => c.type == CType.delete) = 0 := by
        rcases h with (h | h) | h
        · exact_mod_cast h
        · exact absurd h hmax
        · norm_num at h
      exact replay_eq_of_no_changes (guardedLines o) (guardedLines n) (by omega) (by omega)
    · intro h
      left
      left
      have hall := computeDiff_self_equal (guardedLines o)
      rw [h] at hall ⊢
      have h1 : (computeDiff (guardedLines n) (guardedLines n)).countP
          (fun c => c.type == CType.insert) = 0 := by
        apply List.countP_eq_zero.mpr
        intro c hc
        simp [hall c hc]
      have h2 : (computeDiff (guardedLines n) (guardedLines n)).countP
          (fun c => c.type == CType.delete) = 0 := by
        apply List.countP_eq_zero.mpr
        intro c hc
        simp [hall c hc]
      rw [h1, h2]
      norm_num
  · intro h
    rw [isMajorRewrite_def, decide_eq_true h]
    simp

/-- Witness for C4 at concrete inputs: equal contents give 0 percent;
a 4-ops-changed-out-of-3-lines pair exceeds 60 percent and is classified
a major rewrite. -/
theorem calculateDiffStats_classifier_witness :
    (calculateDiffStats "a" "a").changedPercent = 0 ∧
      (calculateDiffStats "a" "b\nc\nd").isMajorRewrite = true := by
  constructor
  · exact (calculateDiffStats_classifier "a" "a").1.mpr rfl
  · apply (calculateDiffStats_classifier "a" "b\nc\nd").2
    rw [changedPercent_def]
    have h1 : (computeDiff (guardedLines "a") (guardedLines "b\nc\nd")).countP
        (fun c => c.type == CType.insert) = 3 := by decide
    have h2 : (computeDiff (guardedLines "a") (guardedLines "b\nc\nd")).countP
        (fun c => c.type == CType.delete) = 1 := by decide
    have h3 : (guardedLines "a").length = 1 := by decide
    have h4 : (guardedLines "b\nc\nd").length = 3 := by decide
    rw [h1, h2, h3, h4]
    norm_num

/-- **C6.** Scenario A: `old = ["a","b","c"]`, `new = ["a","x","c"]`,
`contextLines = 3` produce exactly one hunk `1,3 / 1,3` with lines
`[context a, remove b, add x, context c]`, the edit script taking the
insert-preferring tie-break at the changed line. -/
theorem scenarioA_pipeline :
    computeDiff ["a", "b", "c"] ["a", "x", "c"] =
        [⟨CType.equal, 0, 0, "a"⟩, ⟨CType.delete, 1, -1, "b"⟩,
         ⟨CType.insert, 1, 1, "x"⟩, ⟨CType.equal, 2, 2, "c"⟩] ∧
      createHunks (computeDiff ["a", "b", "c"] ["a", "x", "c"])
          ["a", "b", "c"] ["a", "x", "c"] 3 =
        [{ oldStart := 1, oldCount := 3, newStart := 1, newCount := 3,
           lines := [⟨"context", "a", some 1, some 1⟩, ⟨"remove", "b", some 2, none⟩,
                     ⟨"add", "x", none, some 2⟩, ⟨"context", "c", some 3, some 3⟩] }] := by
  constructor
  · decide
  · decide

/-- **C10.** For two empty contents the classifier reports
`changedPercent = 0` and nevertheless `isMajorRewrite = true`, because
the size ratio is taken to be `newLineCount = 0`, which satisfies the
`< 0.33` branch. -/
theorem emptyPair_isMajorRewrite :
    (calculateDiffStats "" "").changedPercent = 0 ∧
      sizeRatioOf "" "" = 0 ∧
      (calculateDiffStats "" "").isMajorRewrite = true := by
  have hp : (calculateDiffStats "" "").changedPercent = 0 := by
    rw [changedPercent_def]
    norm_num [guardedLines, computeDiff, backtrackAux]
  have hr : sizeRatioOf "" "" = 0 := by
    norm_num [sizeRatioOf, guardedLines]
  refine ⟨hp, hr, ?_⟩
  rw [isMajorRewrite_def, hp, hr]
  norm_num

/-! ## Scenario B: an added file -/

/-- The added-file input of Scenario B. -/
def scenarioB_data : FileContextData :=
  { oldContent := "", newContent := "line1\nline2", language := "typescript", status := "A" }

/-- A comment record with no line comments. -/
def scenarioB_comment : FileComment :=
  { filePath := "f.ts", staged := true, generalComment := "", lineComments := [] }

/-- An added two-line file has `changedPercent = 100`. -/
lemma addedFile_changedPercent :
    (calculateDiffStats "" "line1\nline2").changedPercent = 100 := by
  rw [changedPercent_def]
  have h1 : (computeDiff (guardedLines "") (guardedLines "line1\nline2")).countP
      (fun c => c.type == CType.insert) = 2 := by decide
  have h2 : (computeDiff (guardedLines "") (guardedLines "line1\nline2")).countP
      (fun c => c.type == CType.delete) = 0 := by decide
  have h3 : (guardedLines "").length = 0 := by decide
  have h4 : (guardedLines "line1\nline2").length = 2 := by decide
  rw [h1, h2, h3, h4]
  norm_num

/-- … and is therefore classified a major rewrite. -/
lemma addedFile_isMajorRewrite :
    (calculateDiffStats "" "line1\nline2").isMajorRewrite = true := by
  rw [isMajorRewrite_def, addedFile_changedPercent]
  norm_num

/-- **C3, counterexample.** For the added file of Scenario B the
renderer does *not* take the `### New File` branch: the section contains
no `### New File` heading, and the file is classified (and headed) as a
major rewrite instead. -/
theorem scenarioB_not_newFile_branch :
    "### New File" ∉
        (renderFileSection scenarioB_comment (some scenarioB_data) "f.ts:true").1 ∧
      "## f.ts (Added) - **Major Rewrite**" ∈
        (renderFileSection scenarioB_comment (some scenarioB_data) "f.ts:true").1 := by
  have hM := addedFile_isMajorRewrite
  constructor
  · simp only [renderFileSection, scenarioB_data, Option.map_some', hM]
    decide
  · simp only [renderFileSection, scenarioB_data, Option.map_some', hM]
    decide

/-- **C3, amended.** The change statistics of Scenario B are computed
with `oldLineCount = 0`, and the renderer takes the major-rewrite branch
(a full `### New Content` listing of both lines), not the hunked-diff
branch and not the (unreachable) `### New File` branch. -/
theorem scenarioB_major_rewrite_branch :
    (calculateDiffStats "" "line1\nline2").oldLines = 0 ∧
      (calculateDiffStats "" "line1\nline2").isMajorRewrite = true ∧
      "### New Content" ∈
        (renderFileSection scenarioB_comment (some scenarioB_data) "f.ts:true").1 ∧
      "   1 | line1" ∈
        (renderFileSection scenarioB_comment (some scenarioB_data) "f.ts:true").1 ∧
      "   2 | line2" ∈
        (renderFileSection scenarioB_comment (some scenarioB_data) "f.ts:true").1 ∧
      "### Changes" ∉
        (renderFileSection scenarioB_comment (some scenarioB_data) "f.ts:true").1 := by
  have hM := addedFile_isMajorRewrite
  refine ⟨by decide, hM, ?_, ?_, ?_, ?_⟩ <;>
    · simp only [renderFileSection, scenarioB_data, Option.map_some', hM]
      decide

/-! ## The structural summarizer and the language tag -/

/-- **C8, counterexample.** The Rust-only `struct` pattern fires for a
file tagged with the known language `typescript`: the claim that only
the tagged language's pattern family is applied is false. -/
theorem rustPattern_fires_for_typescript :
    extractStructuralElements "pub struct Foo" "typescript" = [("Foo", "struct")] := by
  decide

/-- **C8, amended.** The summarizer ignores the language tag entirely:
for every content, any two tags (known or unknown) produce the same
declaration map, every pattern family being tried for every tag, and the
extraction is total (never errors). -/
theorem extractStructuralElements_ignores_language
    (content : String) (tag1 tag2 : String) :
    extractStructuralElements content tag1 = extractStructuralElements content tag2 := rfl

/-! ## Mutation of the input comments (C9) -/

/-- A section leaves its comment record untouched or sorts its
`lineComments` array in place. -/
lemma renderFileSection_state (c : FileComment) (d : Option FileContextData) (k : String) :
    (renderFileSection c d k).2 = c ∨
      (renderFileSection c d k).2 = { c with lineComments := sortByStart c.lineComments } := by
  rw [renderFileSection.eq_def]
  dsimp only
  rcases d with _ | d <;> dsimp only <;> (repeat' split) <;>
    first
      | (left; rfl)
      | (right; rfl)

/-- The relation between a pre-call and post-call comment record: all
fields equal except that `lineComments` may have been permuted. -/
def commentReordered (c c' : FileComment) : Prop :=
  c'.filePath = c.filePath ∧ c'.staged = c.staged ∧
    c'.generalComment = c.generalComment ∧ c'.lineComments.Perm c.lineComments

lemma commentReordered_of_state (c : FileComment) (d : Option FileContextData) (k : String) :
    commentReordered c (renderFileSection c d k).2 := by
  rcases renderFileSection_state c d k with h | h <;> rw [h]
  · exact ⟨rfl, rfl, rfl, List.Perm.refl _⟩
  · exact ⟨rfl, rfl, rfl, List.perm_insertionSort _ _⟩

/-- **C9, amended.** `generateContextMarkdown` never touches the
file-data map, and the post-call state of each input `FileComment`
agrees with its pre-call state on every field except that its
`lineComments` array may have been stably re-sorted in place by
`startLine` (a permutation); nothing is added or removed. -/
theorem generateContextMarkdown_state_perm (comments : List FileComment)
    (fileDataMap : List (String × FileContextData)) (options : ContextOptions) :
    List.Forall₂ commentReordered comments
      (generateContextMarkdownSt comments fileDataMap options).2 := by
  rw [generateContextMarkdownSt]
  dsimp only
  split
  · exact List.forall₂_same.mpr (fun c _ => ⟨rfl, rfl, rfl, List.Perm.refl _⟩)
  · simp only [List.map_map, List.forall₂_map_right_iff, Function.comp]
    apply List.forall₂_same.mpr
    intro c _
    exact commentReordered_of_state c _ _

/-- A line comment anchored at `startLine` on the new side. -/
def mkLc (ident : String) (start : Nat) (txt : String) : LineComment :=
  { id := ident
    startLine := start
    endLine := start
    lineContent := ""
    lineContents := none
    side := "new"
    text := txt
    createdAt := 0
    updatedAt := 0 }

/-- The out-of-order comment pair used to exhibit the mutation. -/
def mutComment : FileComment :=
  { filePath := "f.ts"
    staged := true
    generalComment := ""
    lineComments := [mkLc "id1" 5 "later", mkLc "id2" 3 "earlier"] }

/-- **C9, counterexample.** After a call on a major-rewrite file whose
`lineComments` are not already sorted by `startLine`, the input
`FileComment` has been mutated: its `lineComments` order changed. -/
theorem generateContextMarkdown_mutates_input :
    (generateContextMarkdownSt [mutComment] [("f.ts:true", scenarioB_data)]
        { reviewFocus := none, includeUncommentedFiles := none }).2 ≠ [mutComment] := by
  with_unfolding_all decide

/-! ## Structure of the change indices -/

lemma changeIndicesOf_sorted (changes : List DiffChange) :
    List.Pairwise (· < ·) (changeIndicesOf changes) := by
  have henum : List.Pairwise (fun p q : Nat × DiffChange => p.1 < q.1) changes.enum := by
    have hmap : List.Pairwise (· < ·) (changes.enum.map Prod.fst) := by
      rw [show changes.enum.map Prod.fst = List.range changes.length from by
        simpa using List.enumFrom_map_fst 0 changes]
      exact List.pairwise_lt_range _
    exact (List.pairwise_map.mp hmap)
  apply henum.filterMap
  intro a b hab x hx y hy
  simp only [Option.mem_def] at hx hy
  split at hx
  · exact absurd hx (by simp)
  · split at hy
    · exact absurd hy (by simp)
    · obtain rfl : a.1 = x := by simpa using hx
      obtain rfl : b.1 = y := by simpa using hy
      exact hab

lemma mem_changeIndicesOf (changes : List DiffChange) (i : Nat) :
    i ∈ changeIndicesOf changes ↔
      ∃ h : i < changes.length, (changes.get ⟨i, h⟩).type ≠ CType.equal := by
  rw [changeIndicesOf, List.mem_filterMap]
  constructor
  · rintro ⟨⟨j, c⟩, hmem, hsome⟩
    have hget : changes.get? j = some c := List.mem_enum_iff_get?.mp hmem
    have hj : j < changes.length := (List.get?_eq_some.mp hget).1
    have hc : changes.get ⟨j, hj⟩ = c := by
      have := List.get?_eq_get hj
      rw [this] at hget
      exact Option.some.inj hget
    by_cases htype : c.type = CType.equal
    · simp [htype] at hsome
    · simp only [if_neg htype] at hsome
      obtain rfl : j = i := by simpa using hsome
      exact ⟨hj, by rw [hc]; exact htype⟩
  · rintro ⟨h, htype⟩
    refine ⟨(i, changes.get ⟨i, h⟩), ?_, ?_⟩
    · exact List.mem_enum_iff_get?.mpr (List.get?_eq_get h)
    · simpa using htype

lemma changeIndicesOf_lt_length (changes : List DiffChange) :
    ∀ i ∈ changeIndicesOf changes, i < changes.length := by
  intro i hi
  exact ((mem_changeIndicesOf changes i).mp hi).1

/-- Indexed form of membership in `l.zip l.tail` (consecutive pairs). -/
lemma zip_tail_getElem {α : Type} :
    ∀ (l : List α) (a b : α), (a, b) ∈ l.zip l.tail →
      ∃ (i : Nat) (h : i + 1 < l.length),
        l.get ⟨i, by omega⟩ = a ∧ l.get ⟨i + 1, h⟩ = b := by
  intro l
  induction l with
  | nil => intro a b h; simp at h
  | cons x rest ih =>
    intro a b h
    cases rest with
    | nil => simp at h
    | cons y rest' =>
      have hz : (x :: y :: rest').zip (x :: y :: rest').tail
          = (x, y) :: ((y :: rest').zip (y :: rest').tail) := by simp
      rw [hz] at h
      rcases List.mem_cons.mp h with heq | hmem
      · injection heq with h1 h2
        subst h1
        subst h2
        exact ⟨0, by simp, rfl, rfl⟩
      · obtain ⟨i, hi, h1, h2⟩ := ih a b hmem
        refine ⟨i + 1, by simpa using Nat.succ_lt_succ hi, ?_, ?_⟩
        · exact h1
        · exact h2

/-! ## The full specification of the interval-merging loop

Invariants carried through the loop: the change indices still to be
processed are sorted and in bounds, `lc` is the last change index
already merged into the pending window `(s, e)`, whose end is exactly
`lc`'s clipped window end. -/

lemma mergeRanges_spec (ctx n : Nat) :
    ∀ (cs : List Nat) (s e lc : Nat),
      List.Chain' (· < ·) (lc :: cs) →
      (∀ x ∈ lc :: cs, x < n) →
      e = min (n - 1) (lc + ctx) →
      s ≤ lc →
      (∃ E tail, mergeRanges ctx n cs (s, e) = (s, E) :: tail ∧ e ≤ E) ∧
        (∀ r ∈ mergeRanges ctx n cs (s, e), s ≤ r.1 ∧ r.1 ≤ r.2 ∧ r.2 ≤ n - 1) ∧
        List.Pairwise (fun a b => a.2 + 1 < b.1) (mergeRanges ctx n cs (s, e)) ∧
        (∀ c ∈ lc :: cs, ∃ r ∈ mergeRanges ctx n cs (s, e), r.1 ≤ c ∧ c ≤ r.2) ∧
        (∀ p q, (p, q) ∈ (lc :: cs).zip cs →
          ((∃ r ∈ mergeRanges ctx n cs (s, e),
              r.1 ≤ p ∧ p ≤ r.2 ∧ r.1 ≤ q ∧ q ≤ r.2) ↔
            q ≤ p + (2 * ctx + 1))) := by
  intro cs
  induction cs with
  | nil =>
    intro s e lc hchain hbound he hs
    have hlcn : lc < n := hbound lc (List.mem_cons_self _ _)
    have hlce : lc ≤ e := by omega
    have hen : e ≤ n - 1 := by omega
    refine ⟨⟨e, [], by simp [mergeRanges], le_rfl⟩, ?_, ?_, ?_, ?_⟩
    · intro r hr
      simp only [mergeRanges, List.mem_singleton] at hr
      subst hr
      exact ⟨le_rfl, by omega, hen⟩
    · simp [mergeRanges]
    · intro c hc
      simp only [List.mem_singleton] at hc
      subst hc
      exact ⟨(s, e), by simp [mergeRanges], hs, hlce⟩
    · intro p q hpq
      simp at hpq
  | cons c0 cs' ih =>
    intro s e lc hchain hbound he hs
    have hlt : lc < c0 := (List.chain'_cons.mp hchain).1
    have hchain' : List.Chain' (· < ·) (c0 :: cs') := (List.chain'_cons.mp hchain).2
    have hbound' : ∀ x ∈ c0 :: cs', x < n :=
      fun x hx => hbound x (List.mem_cons_of_mem _ hx)
    have hlcn : lc < n := hbound lc (List.mem_cons_self _ _)
    have hc0n : c0 < n := hbound' c0 (List.mem_cons_self _ _)
    have hfirst : ∀ x ∈ c0 :: cs', c0 ≤ x := by
      intro x hx
      rcases List.mem_cons.mp hx with rfl | hx
      · exact le_rfl
      · exact le_of_lt
          ((List.pairwise_cons.mp (List.chain'_iff_pairwise.mp hchain')).1 x hx)
    have hzip : (lc :: c0 :: cs').zip (c0 :: cs')
        = (lc, c0) :: ((c0 :: cs').zip cs') := by simp
    simp only [mergeRanges]
    by_cases hm : c0 - ctx ≤ e + 1
    · rw [if_pos hm]
      obtain ⟨⟨E, tail, hEq, hle⟩, hbounds, hpair, hcov, hpairs⟩ :=
        ih s (min (n - 1) (c0 + ctx)) c0 hchain' hbound' rfl (by omega)
      have heE : e ≤ E := le_trans (by omega) hle
      refine ⟨⟨E, tail, hEq, heE⟩, hbounds, hpair, ?_, ?_⟩
      · intro c hc
        rcases List.mem_cons.mp hc with rfl | hc
        · exact ⟨(s, E), by simp [hEq], hs, by omega⟩
        · exact hcov c hc
      · intro p q hpq
        rw [hzip] at hpq
        rcases List.mem_cons.mp hpq with heq | hmem
        · injection heq with h1 h2
          subst h1
          subst h2
          constructor
          · intro _
            omega
          · intro _
            refine ⟨(s, E), by simp [hEq], hs, by omega, by omega, by omega⟩
        · exact hpairs p q hmem
    · rw [if_neg hm]
      have hbig : lc + 2 * ctx + 1 < c0 := by omega
      obtain ⟨⟨E', tail', hEq', hle'⟩, hbounds', hpair', hcov', hpairs'⟩ :=
        ih (c0 - ctx) (min (n - 1) (c0 + ctx)) c0 hchain' hbound' rfl (by omega)
      refine ⟨⟨e, _, rfl, le_rfl⟩, ?_, ?_, ?_, ?_⟩
      · intro r hr
        rcases List.mem_cons.mp hr with rfl | hr
        · exact ⟨le_rfl, by omega, by omega⟩
        · obtain ⟨h1, h2, h3⟩ := hbounds' r hr
          exact ⟨by omega, h2, h3⟩
      · refine List.pairwise_cons.mpr ⟨?_, hpair'⟩
        intro r hr
        have := (hbounds' r hr).1
        omega
      · intro c hc
        rcases List.mem_cons.mp hc with rfl | hc
        · exact ⟨(s, e), List.mem_cons_self _ _, hs, by omega⟩
        · obtain ⟨r, hr, h1, h2⟩ := hcov' c hc
          exact ⟨r, List.mem_cons_of_mem _ hr, h1, h2⟩
      · intro p q hpq
        rw [hzip] at hpq
        rcases List.mem_cons.mp hpq with heq | hmem
        · injection heq with h1 h2
          subst h1
          subst h2
          constructor
          · rintro ⟨r, hr, h1, h2, h3, h4⟩
            rcases List.mem_cons.mp hr with rfl | hr
            · omega
            · have := (hbounds' r hr).1
              omega
          · intro hcon
            omega
        · have hp_mem : p ∈ c0 :: cs' := (List.of_mem_zip hmem).1
          have hp_ge : c0 ≤ p := hfirst p hp_mem
          rw [← hpairs' p q hmem]
          constructor
          · rintro ⟨r, hr, h1, h2, h3, h4⟩
            rcases List.mem_cons.mp hr with rfl | hr
            · omega
            · exact ⟨r, hr, h1, h2, h3, h4⟩
          · rintro ⟨r, hr, h1, h2, h3, h4⟩
            exact ⟨r, List.mem_cons_of_mem _ hr, h1, h2, h3, h4⟩

/-- The merged windows cover every change index, are well-formed,
pairwise separated, and group two consecutive change indices together
iff they are at most `2 * contextLines + 1` apart. -/
lemma hunkRangesOf_spec (changes : List DiffChange) (ctx : Nat) :
    (∀ r ∈ hunkRangesOf changes ctx, r.1 ≤ r.2 ∧ r.2 ≤ changes.length - 1) ∧
      List.Pairwise (fun a b => a.2 + 1 < b.1) (hunkRangesOf changes ctx) ∧
      (∀ c ∈ changeIndicesOf changes,
        ∃ r ∈ hunkRangesOf changes ctx, r.1 ≤ c ∧ c ≤ r.2) ∧
      (∀ p q, (p, q) ∈ (changeIndicesOf changes).zip (changeIndicesOf changes).tail →
        ((∃ r ∈ hunkRangesOf changes ctx,
            r.1 ≤ p ∧ p ≤ r.2 ∧ r.1 ≤ q ∧ q ≤ r.2) ↔
          q ≤ p + (2 * ctx + 1))) := by
  rcases hCL : changeIndicesOf changes with _ | ⟨c0, cs⟩
  · have hr : hunkRangesOf changes ctx = [] := by
      simp [hunkRangesOf, hCL]
    rw [hr]
    refine ⟨by simp, by simp, by simp, by simp⟩
  · have hr : hunkRangesOf changes ctx =
        mergeRanges ctx changes.length cs
          (c0 - ctx, min (changes.length - 1) (c0 + ctx)) := by
      simp [hunkRangesOf, hCL]
    have hsorted : List.Chain' (· < ·) (c0 :: cs) := by
      have := changeIndicesOf_sorted changes
      rw [hCL] at this
      exact this.chain'
    have hbound : ∀ x ∈ c0 :: cs, x < changes.length := by
      intro x hx
      apply changeIndicesOf_lt_length changes
      rw [hCL]
      exact hx
    obtain ⟨_, hbounds, hpair, hcov, hpairs⟩ :=
      mergeRanges_spec ctx changes.length cs (c0 - ctx)
        (min (changes.length - 1) (c0 + ctx)) c0 hsorted hbound rfl (by omega)
    rw [hr]
    exact ⟨fun r hrr => (hbounds r hrr).2, hpair, hcov, by simpa using hpairs⟩

/-- If the change indices are empty, there are no ranges. -/
lemma hunkRangesOf_ne_nil (changes : List DiffChange) (ctx : Nat)
    (h : hunkRangesOf changes ctx ≠ []) : changeIndicesOf changes ≠ [] := by
  intro hCL
  exact h (by simp [hunkRangesOf, hCL])

/-- Every op strictly between two consecutive merged ranges is an
`equal` op (otherwise its index would be a change index, covered by
some range, contradicting the separation of the ranges). -/
lemma ranges_gap_equal (changes : List DiffChange) (ctx : Nat) (i : Nat)
    (hi : i + 1 < (hunkRangesOf changes ctx).length) :
    ∀ t (ht : t < changes.length),
      ((hunkRangesOf changes ctx)[i]).2 < t →
      t < ((hunkRangesOf changes ctx)[i + 1]).1 →
      changes[t].type = CType.equal := by
  intro t ht h1 h2
  by_contra hne
  have htCL : t ∈ changeIndicesOf changes :=
    (mem_changeIndicesOf changes t).mpr ⟨ht, hne⟩
  obtain ⟨hwf, hpairw, hcov, _⟩ := hunkRangesOf_spec changes ctx
  obtain ⟨rr, hrrmem, hrt1, hrt2⟩ := hcov t htCL
  obtain ⟨k, hk, rfl⟩ := List.mem_iff_getElem.mp hrrmem
  have hP := List.pairwise_iff_getElem.mp hpairw
  have hwfi := hwf _ (List.getElem_mem (l := hunkRangesOf changes ctx) (by omega : i < _))
  have hwfi1 := hwf _ (List.getElem_mem (l := hunkRangesOf changes ctx) hi)
  rcases Nat.lt_trichotomy k i with hki | hki | hki
  · have := hP k i hk (by omega) hki
    omega
  · subst hki
    omega
  · rcases Nat.eq_or_lt_of_le hki with hki1 | hki1
    · have : (hunkRangesOf changes ctx)[k] =
          (hunkRangesOf changes ctx)[i + 1] := by
        congr 1
        omega
      rw [this] at hrt1 hrt2
      omega
    · have := hP (i + 1) k hi hk (by omega)
      omega

/-- Consecutive ranges emit hunks whose old/new intervals are disjoint
and strictly increasing: the first hunk's lines plus the (all-`equal`)
gap lie strictly before the second hunk's start on both sides. -/
lemma emitHunk_start_gap (changes : List DiffChange) (r r' : Nat × Nat)
    (h1 : r.1 ≤ r.2) (h2 : r.2 + 1 < r'.1) (h3 : r'.1 ≤ changes.length)
    (hgap : ∀ t (ht : t < changes.length), r.2 < t → t < r'.1 →
      changes[t].type = CType.equal) :
    (emitHunk changes r).oldStart + (emitHunk changes r).oldCount <
        (emitHunk changes r').oldStart ∧
      (emitHunk changes r).newStart + (emitHunk changes r).newCount <
        (emitHunk changes r').newStart := by
  have htake1 : changes.take r'.1 =
      changes.take (r.2 + 1) ++ (changes.drop (r.2 + 1)).take (r'.1 - (r.2 + 1)) := by
    conv_lhs => rw [show r'.1 = (r.2 + 1) + (r'.1 - (r.2 + 1)) by omega]
    rw [List.take_add]
  have htake2 : changes.take (r.2 + 1) =
      changes.take r.1 ++ (changes.drop r.1).take (r.2 + 1 - r.1) := by
    conv_lhs => rw [show r.2 + 1 = r.1 + (r.2 + 1 - r.1) by omega]
    rw [List.take_add]
  have hg_all : ∀ x ∈ (changes.drop (r.2 + 1)).take (r'.1 - (r.2 + 1)),
      advancesOld x = true ∧ advancesNew x = true := by
    intro x hx
    obtain ⟨idx, hidx, rfl⟩ := List.mem_iff_getElem.mp hx
    have hlt : (r.2 + 1) + idx < changes.length := by
      have hl1 := hidx
      rw [List.length_take, List.length_drop] at hl1
      omega
    have hidx2 : ((changes.drop (r.2 + 1)).take (r'.1 - (r.2 + 1)))[idx] =
        changes[(r.2 + 1) + idx] := by
      rw [List.getElem_take, List.getElem_drop]
    have heq : changes[(r.2 + 1) + idx].type = CType.equal := by
      apply hgap
      · omega
      · have hl1 := hidx
        rw [List.length_take, List.length_drop] at hl1
        omega
    rw [hidx2]
    simp [advancesOld, advancesNew, heq]
  have hcntO : ((changes.drop (r.2 + 1)).take (r'.1 - (r.2 + 1))).countP advancesOld =
      ((changes.drop (r.2 + 1)).take (r'.1 - (r.2 + 1))).length :=
    List.countP_eq_length.mpr (fun x hx => (hg_all x hx).1)
  have hcntN : ((changes.drop (r.2 + 1)).take (r'.1 - (r.2 + 1))).countP advancesNew =
      ((changes.drop (r.2 + 1)).take (r'.1 - (r.2 + 1))).length :=
    List.countP_eq_length.mpr (fun x hx => (hg_all x hx).2)
  have hlen : ((changes.drop (r.2 + 1)).take (r'.1 - (r.2 + 1))).length =
      r'.1 - (r.2 + 1) := by
    rw [List.length_take, List.length_drop]
    omega
  have hsplitO : (changes.take r'.1).countP advancesOld =
      (changes.take r.1).countP advancesOld +
        ((changes.drop r.1).take (r.2 + 1 - r.1)).countP advancesOld +
        (r'.1 - (r.2 + 1)) := by
    rw [htake1, htake2, List.countP_append, List.countP_append, hcntO, hlen]
  have hsplitN : (changes.take r'.1).countP advancesNew =
      (changes.take r.1).countP advancesNew +
        ((changes.drop r.1).take (r.2 + 1 - r.1)).countP advancesNew +
        (r'.1 - (r.2 + 1)) := by
    rw [htake1, htake2, List.countP_append, List.countP_append, hcntN, hlen]
  simp only [emitHunk]
  omega

/-- The hunks of `createHunks` are the emitted merged ranges, and their
old/new line intervals are strictly increasing and non-overlapping. -/
lemma createHunks_chain (changes : List DiffChange)
    (oldLines newLines : List String) (ctx : Nat) :
    List.Chain'
      (fun h h' => h.oldStart + h.oldCount < h'.oldStart ∧
        h.newStart + h.newCount < h'.newStart)
      (createHunks changes oldLines newLines ctx) := by
  rw [createHunks, List.chain'_map, List.chain'_iff_get]
  intro i hImax
  have hi : i + 1 < (hunkRangesOf changes ctx).length := by omega
  obtain ⟨hwf, hpairw, _, _⟩ := hunkRangesOf_spec changes ctx
  have hsep := List.pairwise_iff_getElem.mp hpairw i (i + 1) (by omega) hi (by omega)
  have hwfi := hwf _ (List.getElem_mem (l := hunkRangesOf changes ctx) (by omega : i < _))
  have hwfi1 := hwf _ (List.getElem_mem (l := hunkRangesOf changes ctx) hi)
  have hn : ((hunkRangesOf changes ctx)[i + 1]).1 ≤ changes.length := by
    have hne : changeIndicesOf changes ≠ [] := by
      apply hunkRangesOf_ne_nil changes ctx
      intro hnil
      rw [hnil] at hi
      simp at hi
    have hpos : 0 < changes.length := by
      rcases hCL : changeIndicesOf changes with _ | ⟨c0, _⟩
      · exact absurd hCL hne
      · have := changeIndicesOf_lt_length changes c0 (by rw [hCL]; exact List.mem_cons_self _ _)
        omega
    omega
  exact emitHunk_start_gap changes _ _ hwfi.1 hsep hn
    (ranges_gap_equal changes ctx i hi)

/-- **C5, amended.** For every edit script and `contextLines` setting:
the hunks are the emitted merged windows, in order; their old-side and
new-side line intervals are strictly increasing and non-overlapping
(each hunk ends strictly before the next begins, on both sides); and two
consecutive change ops end up inside one common merged window iff they
are separated by at most `2 * contextLines` unchanged lines (i.e. their
indices differ by at most `2 * contextLines + 1`) — with exactly
`2 * contextLines + 1` unchanged lines between them they are *not*
merged, contrary to the original claim's threshold. -/
theorem createHunks_invariants (changes : List DiffChange)
    (oldLines newLines : List String) (ctx : Nat) :
    createHunks changes oldLines newLines ctx =
        (hunkRangesOf changes ctx).map (emitHunk changes) ∧
      List.Chain'
        (fun h h' => h.oldStart + h.oldCount < h'.oldStart ∧
          h.newStart + h.newCount < h'.newStart)
        (createHunks changes oldLines newLines ctx) ∧
      (∀ p q, (p, q) ∈ (changeIndicesOf changes).zip (changeIndicesOf changes).tail →
        ((∃ r ∈ hunkRangesOf changes ctx, r.1 ≤ p ∧ p ≤ r.2 ∧ r.1 ≤ q ∧ q ≤ r.2) ↔
          q ≤ p + (2 * ctx + 1))) :=
  ⟨rfl, createHunks_chain changes oldLines newLines ctx,
    (hunkRangesOf_spec changes ctx).2.2.2⟩

/-- Witness: in the five-line example below with `contextLines = 3`, the
consecutive change ops at script indices 1 and 5 (4 apart, hence within
`2 * 3 + 1`) are covered by one common merged window. -/
theorem createHunks_invariants_witness :
    ∃ r ∈ hunkRangesOf (computeDiff (jsSplit '\n' "x\na\nb\nc\ny")
        (jsSplit '\n' "X\na\nb\nc\nY")) 3,
      r.1 ≤ 1 ∧ 1 ≤ r.2 ∧ r.1 ≤ 5 ∧ 5 ≤ r.2 :=
  ((createHunks_invariants
      (computeDiff (jsSplit '\n' "x\na\nb\nc\ny") (jsSplit '\n' "X\na\nb\nc\nY"))
      [] [] 3).2.2 1 5 (by decide)).mpr (by omega)

/-- **C5, counterexample.** With `contextLines = 1`, the two change
regions of this diff (script indices 1 and 5) are separated by exactly
`3 = 2 * 1 + 1` unchanged lines, yet the builder emits *two* hunks
(windows `(0,2)` and `(4,6)`) instead of merging them into one, and the
hunks are separated by a single unchanged line — not more than
`2 * contextLines + 1` of them.  Both parts of the claimed invariant are
therefore off by one. -/
theorem hunk_merge_threshold_cex :
    (generateUnifiedDiff "x\na\nb\nc\ny" "X\na\nb\nc\nY" 1).length = 2 ∧
      changeIndicesOf (computeDiff (jsSplit '\n' "x\na\nb\nc\ny")
          (jsSplit '\n' "X\na\nb\nc\nY")) = [0, 1, 5, 6] ∧
      hunkRangesOf (computeDiff (jsSplit '\n' "x\na\nb\nc\ny")
          (jsSplit '\n' "X\na\nb\nc\nY")) 1 = [(0, 2), (4, 6)] ∧
      5 - 1 - 1 = 2 * 1 + 1 := by
  decide

/-! ## Comment conservation (C2)

`renderedComments` is the sequence of line comments the renderer emits
for one file section, in emission order, following exactly the branch
structure of `renderFileSection`: the sorted list in the major-rewrite
and no-file-data blocks, the per-hunk filtered lists followed by the
sorted uncovered list in the hunked block, and nothing in the
`### New File` block or when no block is taken. -/

def renderedComments (c : FileComment) (data : Option FileContextData) : List LineComment :=
  match data with
  | some d =>
    if d.oldContent ≠ "" ∨ d.newContent ≠ "" then
      if (calculateDiffStats d.oldContent d.newContent).isMajorRewrite then
        if !c.lineComments.isEmpty then sortByStart c.lineComments else []
      else
        let hunks := generateUnifiedDiff d.oldContent d.newContent 3
        if hunks.isEmpty ∧ d.newContent ≠ "" ∧ d.oldContent = "" then []
        else if !hunks.isEmpty then
          (hunks.map (fun h => hunkCommentsOf h c.lineComments)).flatten ++
            (if !(uncoveredOf hunks c.lineComments).isEmpty then
              sortByStart (uncoveredOf hunks c.lineComments)
            else [])
        else []
    else if !c.lineComments.isEmpty then sortByStart c.lineComments else []
  | none => if !c.lineComments.isEmpty then sortByStart c.lineComments else []

/-- The silent-drop condition: file data present and non-empty, the
change not a major rewrite, and the diff producing no hunks (e.g. old
and new content identical, or an added file slipping past the rewrite
classifier). -/
def commentsDropped : Option FileContextData → Prop
  | none => False
  | some d =>
    (d.oldContent ≠ "" ∨ d.newContent ≠ "") ∧
      (calculateDiffStats d.oldContent d.newContent).isMajorRewrite = false ∧
      generateUnifiedDiff d.oldContent d.newContent 3 = []

instance (data : Option FileContextData) : Decidable (commentsDropped data) :=
  match data with
  | none => isFalse id
  | some d =>
    inferInstanceAs (Decidable ((d.oldContent ≠ "" ∨ d.newContent ≠ "") ∧
      (calculateDiffStats d.oldContent d.newContent).isMajorRewrite = false ∧
      generateUnifiedDiff d.oldContent d.newContent 3 = []))

lemma count_filter_eq {α : Type} [DecidableEq α] (p : α → Bool) (l : List α) (a : α) :
    (l.filter p).count a = if p a then l.count a else 0 := by
  by_cases h : p a
  · rw [if_pos h]
    exact List.count_filter h
  · rw [if_neg h]
    rw [List.count_eq_zero]
    intro hmem
    exact h (List.mem_filter.mp hmem).2

lemma count_hunkComments (lcs : List LineComment) (h : DiffHunk) (a : LineComment) :
    (hunkCommentsOf h lcs).count a = if inHunkRange h a then lcs.count a else 0 := by
  rw [hunkCommentsOf, sortByStart]
  rw [(List.perm_insertionSort _ _).count_eq]
  exact count_filter_eq _ _ _

lemma count_flatten_hunkComments (lcs : List LineComment) (a : LineComment) :
    ∀ hunks : List DiffHunk,
      ((hunks.map (fun h => hunkCommentsOf h lcs)).flatten).count a =
        lcs.count a * hunks.countP (fun h => inHunkRange h a) := by
  intro hunks
  induction hunks with
  | nil => simp
  | cons h hs ih =>
    rw [List.map_cons, List.flatten_cons, List.count_append, ih,
      count_hunkComments, List.countP_cons]
    by_cases hc : inHunkRange h a
    · rw [if_pos hc, if_pos hc]
      ring
    · rw [if_neg hc, if_neg hc]
      ring

/-- At most one hunk of a disjoint family contains a given comment. -/
lemma countP_inHunkRange_le_one (a : LineComment) :
    ∀ hunks : List DiffHunk,
      List.Pairwise
        (fun h h' => h.oldStart + h.oldCount < h'.oldStart ∧
          h.newStart + h.newCount < h'.newStart) hunks →
      hunks.countP (fun h => inHunkRange h a) ≤ 1 := by
  intro hunks
  induction hunks with
  | nil => simp
  | cons h hs ih =>
    intro hpw
    obtain ⟨hrel, hpw'⟩ := List.pairwise_cons.mp hpw
    rw [List.countP_cons]
    by_cases hc : inHunkRange h a
    · rw [if_pos hc]
      have hzero : hs.countP (fun h => inHunkRange h a) = 0 := by
        apply List.countP_eq_zero.mpr
        intro h' hmem
        have hdis := hrel h' hmem
        simp only [inHunkRange] at hc ⊢
        by_cases hside : (a.side == "new") = true
        · rw [if_pos hside] at hc ⊢
          simp only [Bool.and_eq_true, decide_eq_true_eq] at hc
          simp only [Bool.and_eq_true, decide_eq_true_eq, not_and]
          intro habove
          omega
        · rw [if_neg hside] at hc ⊢
          simp only [Bool.and_eq_true, decide_eq_true_eq] at hc
          simp only [Bool.and_eq_true, decide_eq_true_eq, not_and]
          intro habove
          omega
      omega
    · rw [if_neg hc]
      have := ih hpw'
      omega

/-- Conservation of comments along the hunked path. -/
lemma hunk_path_perm (lcs : List LineComment) (hunks : List DiffHunk)
    (hpw : List.Pairwise
      (fun h h' => h.oldStart + h.oldCount < h'.oldStart ∧
        h.newStart + h.newCount < h'.newStart) hunks) :
    ((hunks.map (fun h => hunkCommentsOf h lcs)).flatten ++
        (if !(uncoveredOf hunks lcs).isEmpty then
          sortByStart (uncoveredOf hunks lcs)
        else [])).Perm lcs := by
  apply List.perm_iff_count.mpr
  intro a
  rw [List.count_append, count_flatten_hunkComments]
  have hunc : (if !(uncoveredOf hunks lcs).isEmpty then
      sortByStart (uncoveredOf hunks lcs) else []).count a =
      (uncoveredOf hunks lcs).count a := by
    by_cases hguard : (uncoveredOf hunks lcs).isEmpty
    · simp [hguard, List.isEmpty_iff.mp hguard]
    · simp only [hguard, Bool.not_false, if_pos]
      exact (List.perm_insertionSort _ _).count_eq a
  rw [hunc, uncoveredOf, count_filter_eq]
  by_cases hcov : ∃ h ∈ hunks, inHunkRange h a
  · have hpos : 0 < hunks.countP (fun h => inHunkRange h a) :=
      List.countP_pos_iff.mpr hcov
    have hle := countP_inHunkRange_le_one a hunks hpw
    have hone : hunks.countP (fun h => inHunkRange h a) = 1 := by omega
    rw [hone]
    have hany : (hunks.any (fun h => inHunkRange h a)) = true := by
      rw [List.any_eq_true]
      exact hcov
    rw [hany]
    simp
  · have hzero : hunks.countP (fun h => inHunkRange h a) = 0 := by
      apply List.countP_eq_zero.mpr
      intro h hmem hin
      exact hcov ⟨h, hmem, hin⟩
    have hany : (hunks.any (fun h => inHunkRange h a)) = false := by
      rw [List.any_eq_false]
      intro h hmem hin
      exact hcov ⟨h, hmem, hin⟩
    rw [hzero, hany]
    simp

/-- **C2, amended.** Unless the file section hits the silent-drop case
(data present with some content, not a major rewrite, and no hunks —
e.g. identical old and new content), the comments the renderer emits for
a file are exactly its input `lineComments`, each appearing exactly once
(a permutation); in the drop case they are all omitted. -/
theorem renderedComments_conservation (c : FileComment) (data : Option FileContextData) :
    (¬ commentsDropped data → (renderedComments c data).Perm c.lineComments) ∧
      (commentsDropped data → renderedComments c data = []) := by
  constructor
  · intro hnd
    rcases data with _ | d
    · rw [renderedComments]
      split
      · exact List.perm_insertionSort _ _
      · rename_i hguard
        have h0 : c.lineComments = [] := by
          rw [← List.isEmpty_iff]
          simpa using hguard
        rw [h0]
    · rw [renderedComments]
      simp only
      split
      · split
        · split
          · exact List.perm_insertionSort _ _
          · rename_i hguard
            have h0 : c.lineComments = [] := by
              rw [← List.isEmpty_iff]
              simpa using hguard
            rw [h0]
        · split
          · rename_i hcontent hmajor hnewfile
            exfalso
            apply hnd
            refine ⟨hcontent, by simpa using hmajor, ?_⟩
            exact List.isEmpty_iff.mp hnewfile.1
          · split
            · apply hunk_path_perm
              have hchain := createHunks_chain
                (computeDiff (jsSplit '\n' d.oldContent) (jsSplit '\n' d.newContent))
                (jsSplit '\n' d.oldContent) (jsSplit '\n' d.newContent) 3
              haveI : IsTrans DiffHunk
                  (fun h h' => h.oldStart + h.oldCount < h'.oldStart ∧
                    h.newStart + h.newCount < h'.newStart) := by
                constructor
                intro x y z hxy hyz
                omega
              exact List.chain'_iff_pairwise.mp hchain
            · rename_i hcontent hmajor hnewfile hhunks
              exfalso
              apply hnd
              refine ⟨hcontent, by simpa using hmajor, ?_⟩
              simp only [Bool.not_eq_true] at hhunks
              exact List.isEmpty_iff.mp (by simpa using hhunks)
      · split
        · exact List.perm_insertionSort _ _
        · rename_i hguard
          have h0 : c.lineComments = [] := by
            rw [← List.isEmpty_iff]
            simpa using hguard
          rw [h0]
  · intro hd
    rcases data with _ | d
    · exact absurd hd id
    obtain ⟨hcontent, hmajor, hhunks⟩ := hd
    rw [renderedComments]
    dsimp only
    rw [if_pos hcontent, if_neg (by simp [hmajor])]
    rw [hhunks]
    simp

/-- A hunked-path input: one changed line in a six-line file (33
percent changed, not a major rewrite), one comment inside the hunk and
one far outside every hunk. -/
def hunkedData : FileContextData :=
  { oldContent := "a\nb\nc\nd\ne\nf"
    newContent := "a\nX\nc\nd\ne\nf"
    language := "text"
    status := "M" }

/-- Comments for the hunked-path witness. -/
def hunkedComment : FileComment :=
  { filePath := "f.ts"
    staged := true
    generalComment := ""
    lineComments := [mkLc "w1" 2 "hunked", mkLc "w2" 50 "uncovered"] }

/-- Witness for C2's amended conservation at a concrete hunked input:
one comment lands in the hunk, the other in `Other Comments`, and
together they are a permutation of the input. -/
theorem renderedComments_conservation_witness :
    (renderedComments hunkedComment (some hunkedData)).Perm hunkedComment.lineComments :=
  (renderedComments_conservation hunkedComment (some hunkedData)).1
    (by with_unfolding_all decide)

/-! ### The silent drop at the whole-document level -/

/-- `true` iff `pat` is a prefix of the character list. -/
def isPrefixChars : List Char → List Char → Bool
  | [], _ => true
  | _ :: _, [] => false
  | p :: ps, c :: cs => p = c && isPrefixChars ps cs

/-- Occurrences of a (non-empty) pattern in a character list. -/
def occurrencesAux (pat : List Char) : List Char → Nat
  | [] => 0
  | c :: cs => (if isPrefixChars pat (c :: cs) then 1 else 0) + occurrencesAux pat cs

/-- Occurrences of a non-empty pattern in a string. -/
def occurrences (pat s : String) : Nat :=
  occurrencesAux pat.data s.data

/-- A file whose old and new contents are identical. -/
def unchangedData : FileContextData :=
  { oldContent := "x"
    newContent := "x"
    language := "typescript"
    status := "M" }

/-- One annotated line comment on that file. -/
def unchangedComment : FileComment :=
  { filePath := "f.ts"
    staged := true
    generalComment := ""
    lineComments := [mkLc "id9" 1 "NEEDSFIX"] }

set_option maxRecDepth 40000 in
/-- **C2, counterexample.** An input annotation on a file whose data is
present but whose contents are identical (no hunks, not a major
rewrite) is silently dropped: its text appears zero times in the
rendered markdown, not exactly once. -/
theorem comment_silently_dropped :
    unchangedComment.lineComments.length = 1 ∧
      occurrences "NEEDSFIX" (unchangedComment.lineComments.getD 0 (mkLc "" 0 "")).text = 1 ∧
      occurrences "NEEDSFIX"
        (generateContextMarkdown [unchangedComment] [("f.ts:true", unchangedData)]
          { reviewFocus := none, includeUncommentedFiles := none }) = 0 := by
  with_unfolding_all decide

/-! ## There is no line-count ceiling (C7)

The family `old = "x" :: a^k`, `new = "y" :: a^k` witnesses full hunk
computation at every size: the backtracking walks the common `a` suffix
with `Equal` ops (never consulting the table) and resolves the head
difference via the boundary entries `dp[1][0] = dp[0][1] = 0`. -/

lemma splitChars_cons_sep (sep : Char) (zs : List Char) :
    splitChars sep (sep :: zs) = [] :: splitChars sep zs := by
  simp [splitChars]

lemma splitChars_append_no_sep (sep : Char) :
    ∀ (xs : List Char), (∀ c ∈ xs, ¬ c = sep) → ∀ (ys hd : List Char) (tl : List (List Char)),
      splitChars sep ys = hd :: tl →
      splitChars sep (xs ++ ys) = (xs ++ hd) :: tl := by
  intro xs
  induction xs with
  | nil =>
    intro _ ys hd tl h
    simpa using h
  | cons c xs ih =>
    intro hns ys hd tl h
    have hc : ¬ c = sep := hns c (List.mem_cons_self _ _)
    have ih' := ih (fun d hd' => hns d (List.mem_cons_of_mem _ hd')) ys hd tl h
    show splitChars sep (c :: (xs ++ ys)) = (c :: (xs ++ hd)) :: tl
    rw [splitChars, if_neg hc, ih']

lemma splitChars_no_sep (sep : Char) (xs : List Char) (h : ∀ c ∈ xs, ¬ c = sep) :
    splitChars sep xs = [xs] := by
  have := splitChars_append_no_sep sep xs h [] [] [] (by simp [splitChars])
  simpa using this

/-- Splitting a newline-join of newline-free lines recovers the lines. -/
lemma jsSplit_joinWith (l : List String) (hne : l ≠ [])
    (hnl : ∀ s ∈ l, ∀ c ∈ s.data, ¬ c = '\n') :
    jsSplit '\n' (joinWith "\n" l) = l := by
  induction l with
  | nil => exact absurd rfl hne
  | cons s rest ih =>
    rcases rest with _ | ⟨s2, rest'⟩
    · rw [joinWith, jsSplit]
      rw [splitChars_no_sep '\n' s.data (hnl s (List.mem_cons_self _ _))]
      simp
    · have hne2 : s2 :: rest' ≠ [] := List.cons_ne_nil _ _
      have hrest : jsSplit '\n' (joinWith "\n" (s2 :: rest')) = s2 :: rest' :=
        ih hne2 (fun x hx => hnl x (List.mem_cons_of_mem _ hx))
      rw [show joinWith "\n" (s :: s2 :: rest') =
        s ++ "\n" ++ joinWith "\n" (s2 :: rest') from rfl]
      rw [jsSplit] at hrest ⊢
      obtain ⟨hd, tl, hsplit, hmap⟩ :
          ∃ hd tl, splitChars '\n' (joinWith "\n" (s2 :: rest')).data = hd :: tl ∧
            (hd :: tl).map (fun cs => String.mk cs) = s2 :: rest' := by
        rcases hs : splitChars '\n' (joinWith "\n" (s2 :: rest')).data with _ | ⟨hd, tl⟩
        · rw [hs] at hrest
          simp at hrest
        · exact ⟨hd, tl, rfl, by rw [← hs, hrest]⟩
      have hdata : (s ++ "\n" ++ joinWith "\n" (s2 :: rest')).data =
          s.data ++ ('\n' :: (joinWith "\n" (s2 :: rest')).data) := by
        simp
      rw [hdata]
      rw [splitChars_append_no_sep '\n' s.data (hnl s (List.mem_cons_self _ _))
        ('\n' :: (joinWith "\n" (s2 :: rest')).data) ([] : List Char)
        (splitChars '\n' (joinWith "\n" (s2 :: rest')).data)
        (splitChars_cons_sep '\n' _)]
      rw [hsplit, List.append_nil]
      simp only [List.map_cons] at hmap ⊢
      rw [hmap]

lemma getD_replicate_lt {k m : Nat} (h : m < k) :
    (List.replicate k "a").getD m "" = "a" := by
  rw [List.getD_eq_getElem?_getD, List.getElem?_replicate, if_pos h]
  rfl

lemma backtrackAux_zero_zero (oldL newL : List String) (t : List (List Nat)) :
    ∀ f acc, backtrackAux oldL newL t f 0 0 acc = acc := by
  intro f acc
  cases f with
  | zero => rfl
  | succ f =>
    rw [backtrackAux]
    simp

lemma get2_dpTable_one_zero (o : String) (os newL : List String) :
    get2 (dpTable (o :: os) newL) 1 0 = 0 := by
  simp [dpTable, dpRowsFrom, dpRow, get2]

lemma get2_dpTable_zero_row (oldL newL : List String) (j : Nat) :
    get2 (dpTable oldL newL) 0 j = 0 := by
  simp only [dpTable, get2, List.getD_cons_zero]
  rw [List.getD_eq_getElem?_getD, List.getElem?_replicate]
  split <;> rfl

/-- The backtracking run on the family: the common `a`-suffix is walked
with `Equal` ops, then the differing heads produce one `insert` and one
`delete` via the boundary table entries. -/
lemma backtrack_family (k : Nat) :
    ∀ m, m ≤ k → ∀ fuel acc, m + 2 ≤ fuel →
      backtrackAux ("x" :: List.replicate k "a") ("y" :: List.replicate k "a")
          (dpTable ("x" :: List.replicate k "a") ("y" :: List.replicate k "a"))
          fuel (m + 1) (m + 1) acc =
        { type := CType.delete, oldIdx := 0, newIdx := -1, line := "x" } ::
          { type := CType.insert, oldIdx := 0, newIdx := 0, line := "y" } ::
          ((List.range m).map
            (fun r => { type := CType.equal, oldIdx := (r : Int) + 1,
                        newIdx := (r : Int) + 1, line := "a" }) ++ acc) := by
  intro m
  induction m with
  | zero =>
    intro _ fuel acc hfuel
    obtain ⟨f, rfl⟩ : ∃ f, fuel = f + 1 := ⟨fuel - 1, by omega⟩
    rw [backtrackAux]
    rw [if_neg (by simp), if_neg (by simp),
      if_pos (show (0 < 0 + 1 ∧ (0 + 1 = 0 ∨
          get2 (dpTable ("x" :: List.replicate k "a") ("y" :: List.replicate k "a"))
              (0 + 1) (0 + 1 - 1) ≥
            get2 (dpTable ("x" :: List.replicate k "a") ("y" :: List.replicate k "a"))
              (0 + 1 - 1) (0 + 1))) from
        ⟨by omega, Or.inr (by rw [get2_dpTable_one_zero, get2_dpTable_zero_row])⟩)]
    obtain ⟨f2, rfl⟩ : ∃ f2, f = f2 + 1 := ⟨f - 1, by omega⟩
    rw [backtrackAux]
    rw [if_neg (by simp), if_neg (by simp), if_neg (by simp)]
    rw [backtrackAux_zero_zero]
    simp
  | succ m ih =>
    intro hmk fuel acc hfuel
    have hmk' : m < k := by omega
    obtain ⟨f, rfl⟩ : ∃ f, fuel = f + 1 := ⟨fuel - 1, by omega⟩
    rw [backtrackAux]
    rw [if_neg (by simp)]
    rw [if_pos (show 0 < m + 1 + 1 ∧ 0 < m + 1 + 1 ∧
        ("x" :: List.replicate k "a").getD (m + 1 + 1 - 1) "" =
          ("y" :: List.replicate k "a").getD (m + 1 + 1 - 1) "" from
      ⟨by omega, by omega, by
        show (List.replicate k "a").getD m "" = (List.replicate k "a").getD m ""
        rfl⟩)]
    simp only [Nat.add_sub_cancel]
    rw [ih (by omega) f _ (by omega)]
    rw [List.range_succ, List.map_append]
    have hline : ("x" :: List.replicate k "a").getD (m + 1) "" = "a" := by
      show (List.replicate k "a").getD m "" = "a"
      exact getD_replicate_lt hmk'
    have hcast : ((m + 1 + 1 : Nat) : Int) - 1 = (m : Int) + 1 := by
      push_cast
      ring
    rw [hline, hcast]
    simp

/-- The edit script of the family diff. -/
lemma computeDiff_family (k : Nat) :
    computeDiff ("x" :: List.replicate k "a") ("y" :: List.replicate k "a") =
      { type := CType.delete, oldIdx := 0, newIdx := -1, line := "x" } ::
        { type := CType.insert, oldIdx := 0, newIdx := 0, line := "y" } ::
        (List.range k).map
          (fun r => { type := CType.equal, oldIdx := (r : Int) + 1,
                      newIdx := (r : Int) + 1, line := "a" }) := by
  rw [computeDiff]
  have hlen : ("x" :: List.replicate k "a").length = k + 1 := by simp
  have hlen2 : ("y" :: List.replicate k "a").length = k + 1 := by simp
  rw [hlen, hlen2]
  have := backtrack_family k k le_rfl (k + 1 + (k + 1)) [] (by omega)
  simpa using this

/-- `mergeRanges` never returns the empty list. -/
lemma mergeRanges_ne_nil (ctx n : Nat) :
    ∀ cs r, mergeRanges ctx n cs r ≠ [] := by
  intro cs
  induction cs with
  | nil => intro r; simp [mergeRanges]
  | cons c cs' ih =>
    intro r
    obtain ⟨s, e⟩ := r
    simp only [mergeRanges]
    split
    · exact ih _
    · simp

/-- A script starting with a non-`equal` op yields at least one hunk. -/
lemma createHunks_ne_nil_of_head (c : DiffChange) (rest : List DiffChange)
    (oldLines newLines : List String) (ctx : Nat) (hc : c.type ≠ CType.equal) :
    createHunks (c :: rest) oldLines newLines ctx ≠ [] := by
  have h0 : 0 ∈ changeIndicesOf (c :: rest) := by
    rw [mem_changeIndicesOf]
    exact ⟨by simp, hc⟩
  rw [createHunks]
  intro hmap
  have hranges : hunkRangesOf (c :: rest) ctx = [] := by
    rcases h : hunkRangesOf (c :: rest) ctx with _ | _
    · rfl
    · rw [h] at hmap
      simp at hmap
  rcases hCL : changeIndicesOf (c :: rest) with _ | ⟨c0, cs⟩
  · rw [hCL] at h0
    simp at h0
  · rw [hunkRangesOf, hCL] at hranges
    exact mergeRanges_ne_nil _ _ _ _ hranges

/-- The one-character heads and the repeated line contain no newline. -/
lemma no_newline_family (k : Nat) (head : String)
    (hhead : ∀ c ∈ head.data, ¬ c = '\n') :
    ∀ s ∈ head :: List.replicate k "a", ∀ c ∈ s.data, ¬ c = '\n' := by
  intro s hs c hc
  rcases List.mem_cons.mp hs with rfl | hs
  · exact hhead c hc
  · rw [List.eq_of_mem_replicate hs] at hc
    have hca : c = 'a' := by
      rw [show ("a" : String).data = ['a'] from rfl] at hc
      exact List.mem_singleton.mp hc
    subst hca
    decide

lemma single_char_no_newline (ch : Char) (hch : ¬ ch = '\n') :
    ∀ c ∈ (String.mk [ch]).data, ¬ c = '\n' := by
  intro c hc
  have hcc : c = ch := List.mem_singleton.mp hc
  subst hcc
  exact hch

/-- There are inputs of every size on which the engine computes full
hunk detail. -/
lemma unbounded_hunks (L : Nat) :
    ∃ o n : String, L < (jsSplit '\n' o).length ∧ L < (jsSplit '\n' n).length ∧
      generateUnifiedDiff o n 3 ≠ [] := by
  have hx : ∀ s ∈ "x" :: List.replicate (L + 1) "a", ∀ c ∈ s.data, ¬ c = '\n' :=
    no_newline_family (L + 1) "x" (single_char_no_newline 'x' (by decide))
  have hy : ∀ s ∈ "y" :: List.replicate (L + 1) "a", ∀ c ∈ s.data, ¬ c = '\n' :=
    no_newline_family (L + 1) "y" (single_char_no_newline 'y' (by decide))
  have hox : jsSplit '\n' (joinWith "\n" ("x" :: List.replicate (L + 1) "a")) =
      "x" :: List.replicate (L + 1) "a" :=
    jsSplit_joinWith _ (List.cons_ne_nil _ _) hx
  have hoy : jsSplit '\n' (joinWith "\n" ("y" :: List.replicate (L + 1) "a")) =
      "y" :: List.replicate (L + 1) "a" :=
    jsSplit_joinWith _ (List.cons_ne_nil _ _) hy
  refine ⟨joinWith "\n" ("x" :: List.replicate (L + 1) "a"),
    joinWith "\n" ("y" :: List.replicate (L + 1) "a"), ?_, ?_, ?_⟩
  · rw [hox]
    simp only [List.length_cons, List.length_replicate]
    omega
  · rw [hoy]
    simp only [List.length_cons, List.length_replicate]
    omega
  · rw [generateUnifiedDiff]
    simp only [hox, hoy]
    rw [computeDiff_family]
    exact createHunks_ne_nil_of_head _ _ _ _ 3 (by simp)


/-- **C7, amended.** There is no line-count ceiling: for every bound `L`
there are inputs with more than `L` lines on each side for which
`generateUnifiedDiff` computes the full alignment and returns a
non-empty hunk list (no degraded-mode result exists in the engine). -/
theorem generateUnifiedDiff_no_ceiling (L : Nat) :
    ∃ o n : String, L < (jsSplit '\n' o).length ∧ L < (jsSplit '\n' n).length ∧
      generateUnifiedDiff o n 3 ≠ [] :=
  unbounded_hunks L

/-- **C7, counterexample.** The claimed line-count ceiling does not
exist: no bound `L` makes every larger input degrade to an empty hunk
list. -/
theorem line_count_ceiling_cex :
    ¬ ∃ L : Nat, ∀ o n : String,
        L < max (jsSplit '\n' o).length (jsSplit '\n' n).length →
        generateUnifiedDiff o n 3 = [] := by
  rintro ⟨L, hL⟩
  obtain ⟨o, n, h1, _, hne⟩ := unbounded_hunks L
  exact hne (hL o n (by omega))

end LocalDiffer
